import Mathlib

/-!
Shallow embedding of the hexyl line-rendering engine (`src/lib.rs`).

Pure Rust functions become Lean functions; the stateful `Printer` becomes a
record with explicit state passing.  The output writer (`Writer: Write`)
becomes a `Sink` recording the sequence of successful `write_all`/`writeln`
payloads together with a failure plan; machine integers become `Nat` (the
only place where `u64` wrap-around can matter, the printed address
`idx - 1 + display_offset`, takes an explicit `% 2 ^ 64`).

The files `squeezer.rs` and `input.rs` of the repository are not available,
only `lib.rs`; the `Squeezer` is therefore modelled from the specification
(section 4.4) and the byte source is modelled as a plain `List Nat`.
-/

namespace Hexyl

/-- Spaces of a given width, as produced by Rust's `{:w$}` padding of `""`. -/
def spaces (n : Nat) : String :=
  String.mk (List.replicate n ' ')

/-- One lowercase hexadecimal digit, as produced by Rust's `{:x}`. -/
def hexDigitChar (n : Nat) : Char :=
  if n < 10 then Char.ofNat (48 + n) else Char.ofNat (87 + n)

/-- Fuel-driven digit expansion (most significant first) for `{:x}`. -/
def hexDigitsGo : Nat → Nat → List Char
  | 0, _ => []
  | fuel + 1, n =>
    if n < 16 then [hexDigitChar n]
    else hexDigitsGo fuel (n / 16) ++ [hexDigitChar (n % 16)]

/-- The lowercase hexadecimal digits of `n`, as printed by Rust's `{:x}`. -/
def hexDigits (n : Nat) : List Char :=
  hexDigitsGo (n + 1) n

/-- Rust's `{:0w$x}`: minimum-width zero-padded lowercase hexadecimal. -/
def zeroPadHex (w n : Nat) : String :=
  String.mk (List.replicate (w - (hexDigits n).length) '0' ++ hexDigits n)

/-- Model of `ansi_term` painting: SGR escape around the text. -/
def ansiPaint (code s : String) : String :=
  "\x1b[" ++ code ++ "m" ++ s ++ "\x1b[0m"

/-- `ByteCategory` from `lib.rs`. -/
inductive ByteCategory where
  | Null
  | AsciiPrintable
  | AsciiWhitespace
  | AsciiOther
  | NonAscii
deriving DecidableEq, Repr

/-- Rust `u8::is_ascii_graphic`: `0x21 ..= 0x7e`. -/
def isAsciiGraphic (b : Nat) : Bool :=
  0x21 ≤ b && b ≤ 0x7e

/-- Rust `u8::is_ascii_whitespace`: space, tab, newline, form feed, carriage return. -/
def isAsciiWhitespace (b : Nat) : Bool :=
  b == 0x20 || b == 0x09 || b == 0x0a || b == 0x0c || b == 0x0d

/-- Rust `u8::is_ascii`: `< 0x80`. -/
def isAscii (b : Nat) : Bool :=
  b < 0x80

namespace Byte

/-- `Byte::category` from `lib.rs`. -/
def category (b : Nat) : ByteCategory :=
  if b = 0x00 then .Null
  else if isAsciiGraphic b then .AsciiPrintable
  else if isAsciiWhitespace b then .AsciiWhitespace
  else if isAscii b then .AsciiOther
  else .NonAscii

/-- `Byte::as_char` from `lib.rs`. -/
def asChar (b : Nat) : Char :=
  match category b with
  | .Null => '0'
  | .AsciiPrintable => Char.ofNat b
  | .AsciiWhitespace => if b = 0x20 then ' ' else '_'
  | .AsciiOther => '•'
  | .NonAscii => '×'

/-- `Byte::color` from `lib.rs`, as the SGR parameter of the ANSI escape. -/
def colorCode (b : Nat) : String :=
  match category b with
  | .Null => "38;5;242"
  | .AsciiPrintable => "36"
  | .AsciiWhitespace => "32"
  | .AsciiOther => "35"
  | .NonAscii => "33"

end Byte

/-- `WindowSizeError` from `lib.rs` ("value is not divisible by 2"). -/
inductive WindowSizeError where
  | mk
deriving DecidableEq, Repr

/-- `WindowSize` from `lib.rs`: a `u16` newtype. -/
structure WindowSize where
  val : Nat
deriving DecidableEq, Repr

namespace WindowSize

/-- `WindowSize::new`: succeeds exactly when `n % 2 == 0`. -/
def new (n : Nat) : Except WindowSizeError WindowSize :=
  if n % 2 = 0 then .ok ⟨n⟩ else .error .mk

/-- `WindowSize::half`. -/
def half (w : WindowSize) : Nat :=
  w.val / 2

/-- `WindowSize::full`. -/
def full (w : WindowSize) : Nat :=
  w.val

end WindowSize

/-- `BorderElements` from `lib.rs`. -/
structure BorderElements where
  leftCorner : Char
  horizontalLine : Char
  columnSeparator : Char
  rightCorner : Char

/-- `BorderStyle` from `lib.rs`. -/
inductive BorderStyle where
  | Unicode
  | Ascii
  | None
deriving DecidableEq, Repr

namespace BorderStyle

/-- `BorderStyle::header_elems`. -/
def headerElems : BorderStyle → Option BorderElements
  | .Unicode => some ⟨'┌', '─', '┬', '┐'⟩
  | .Ascii => some ⟨'+', '-', '+', '+'⟩
  | .None => none

/-- `BorderStyle::footer_elems`. -/
def footerElems : BorderStyle → Option BorderElements
  | .Unicode => some ⟨'└', '─', '┴', '┘'⟩
  | .Ascii => some ⟨'+', '-', '+', '+'⟩
  | .None => none

/-- `BorderStyle::outer_sep`. -/
def outerSep : BorderStyle → Char
  | .Unicode => '│'
  | .Ascii => '|'
  | .None => ' '

/-- `BorderStyle::inner_sep`. -/
def innerSep : BorderStyle → Char
  | .Unicode => '┊'
  | .Ascii => '|'
  | .None => ' '

end BorderStyle

/-- The style's outer separator as a string. -/
def outerStr (s : BorderStyle) : String :=
  String.mk [s.outerSep]

/-- The style's inner separator as a string. -/
def innerStr (s : BorderStyle) : String :=
  String.mk [s.innerSep]

/-- `SqueezeAction` from `squeezer.rs` (re-exported by `lib.rs`):
`Ignore` prints the row normally, `Print` prints the `*` placeholder,
`Delete` suppresses the row. -/
inductive SqueezeAction where
  | Ignore
  | Print
  | Delete
deriving DecidableEq, Repr

/-- Modelled from the spec: `squeezer.rs` is not under `src/`, so the
`Squeezer` state (section 4.4 of the spec) is reconstructed from its
contract: the previously completed row's raw bytes (or none at the start),
the row in progress as observed byte by byte via `process`, and a flag
telling whether a duplicate run is already active. -/
structure Squeezer where
  enabled : Bool
  prev : Option (List Nat)
  cur : List Nat
  runActive : Bool
deriving DecidableEq, Repr

namespace Squeezer

/-- Modelled from the spec: `Squeezer::new(enabled)`. -/
def new (enabled : Bool) : Squeezer :=
  ⟨enabled, none, [], false⟩

/-- Modelled from the spec: `Squeezer::process` observes one incoming byte
of the row in progress (section 4.4, `observe`). -/
def process (s : Squeezer) (_ws : WindowSize) (b : Nat) (_idx : Nat) : Squeezer :=
  { s with cur := s.cur ++ [b] }

/-- Modelled from the spec: `Squeezer::action` (section 4.4, `decide`).
`Ignore` when squeezing is disabled, at the first row, or when the row
differs from the previous one (two rows are duplicates only when both
length and byte content match exactly); `Print` when the row repeats the
previous one and no run is active yet; `Delete` when a run is already
active. -/
def action (s : Squeezer) : SqueezeAction :=
  if s.enabled then
    match s.prev with
    | none => .Ignore
    | some p => if p = s.cur then (if s.runActive then .Delete else .Print) else .Ignore
  else .Ignore

/-- Modelled from the spec: `Squeezer::advance` (section 4.4, `commit`):
stores the current row as previous, clears the row in progress, and
records whether the row just decided was part of a duplicate run. -/
def advance (s : Squeezer) : Squeezer :=
  { s with prev := some s.cur, cur := [], runActive := s.action ≠ .Ignore }

/-- Modelled from the spec: `Squeezer::active` (section 4.4,
`is_run_active`). -/
def active (s : Squeezer) : Bool :=
  s.runActive

end Squeezer

/-- The output collaborator (`Writer: Write`): records the payload of each
successful write, with a failure plan deciding whether the n-th attempted
write succeeds.  `write_all` on an empty buffer performs no write and
cannot fail, as in Rust. -/
structure Sink where
  out : List String
  plan : Nat → Bool
  count : Nat

namespace Sink

/-- `write_all`/`writeln` on the sink: returns the new sink and whether the
write succeeded.  A failed write records nothing. -/
def writeAll (s : Sink) (txt : String) : Sink × Bool :=
  if txt = "" then (s, true)
  else if s.plan s.count then
    ({ s with out := s.out ++ [txt], count := s.count + 1 }, true)
  else
    ({ s with count := s.count + 1 }, false)

/-- A sink whose writes always succeed (Rust's `Vec<u8>` writer in the
tests). -/
def ok : Sink :=
  ⟨[], fun _ => true, 0⟩

end Sink

/-- `format!("{:02x} ", b)`, one entry of `byte_hex_table`. -/
def byteHexEntry (showColor : Bool) (b : Nat) : String :=
  let byteHex := zeroPadHex 2 b ++ " "
  if showColor then ansiPaint (Byte.colorCode b) byteHex else byteHex

/-- One entry of `byte_char_table`. -/
def byteCharEntry (showColor : Bool) (b : Nat) : String :=
  let byteChar := String.mk [Byte.asChar b]
  if showColor then ansiPaint (Byte.colorCode b) byteChar else byteChar

/-- `Printer` from `lib.rs`.  The two 256-entry lookup tables are pure
functions of `showColor` (`byteHexEntry`, `byteCharEntry`) rather than
stored vectors; indexing `table[b]` is applying the function. -/
structure Printer where
  idx : Nat
  rawLine : List Nat
  bufferLine : String
  sink : Sink
  showColor : Bool
  borderStyle : BorderStyle
  headerWasPrinted : Bool
  squeezer : Squeezer
  displayOffset : Nat
  windowSize : WindowSize

namespace Printer

/-- `Printer::new`. -/
def new (sink : Sink) (showColor : Bool) (borderStyle : BorderStyle)
    (useSqueeze : Bool) : Printer :=
  { idx := 1
    rawLine := []
    bufferLine := ""
    sink := sink
    showColor := showColor
    borderStyle := borderStyle
    headerWasPrinted := false
    squeezer := Squeezer.new useSqueeze
    displayOffset := 0
    windowSize := ⟨16⟩ }

/-- `Printer::display_offset` (builder-style setter). -/
def withDisplayOffset (p : Printer) (d : Nat) : Printer :=
  { p with displayOffset := d }

/-- `Printer::window_size` (builder-style setter). -/
def withWindowSize (p : Printer) (w : WindowSize) : Printer :=
  { p with windowSize := w }

/-- The line emitted by `Printer::print_border_elements` (including the
trailing newline of `writeln!`). -/
def borderLineOf (w : WindowSize) (be : BorderElements) : String :=
  let h := w.half
  let side := String.mk (List.replicate h be.horizontalLine)
  let main := String.mk (List.replicate (h * 3 + 1) be.horizontalLine)
  String.mk [be.leftCorner] ++ side ++ String.mk [be.columnSeparator] ++
    main ++ String.mk [be.columnSeparator] ++ main ++
    String.mk [be.columnSeparator] ++ side ++
    String.mk [be.columnSeparator] ++ side ++ String.mk [be.rightCorner] ++ "\n"

/-- `Printer::header`: writes the top border directly to the sink, the
result of the write being discarded (`let _ = writeln!`). -/
def header (p : Printer) : Printer :=
  match p.borderStyle.headerElems with
  | some bes => { p with sink := (p.sink.writeAll (borderLineOf p.windowSize bes)).1 }
  | none => p

/-- `Printer::footer`: writes the bottom border directly to the sink, the
result of the write being discarded. -/
def footer (p : Printer) : Printer :=
  match p.borderStyle.footerElems with
  | some bes => { p with sink := (p.sink.writeAll (borderLineOf p.windowSize bes)).1 }
  | none => p

/-- The text appended to `buffer_line` by `print_position_indicator`
(after the possible header emission): the address enclosed in outer
separators, followed by one space.  The address is
`idx - 1 + display_offset` as a `u64` (hence the `% 2 ^ 64`), zero-padded
to the half window size. -/
def positionIndicatorText (p : Printer) : String :=
  let byteIndex := zeroPadHex p.windowSize.half ((p.idx - 1 + p.displayOffset) % 2 ^ 64)
  let formatted := if p.showColor then ansiPaint "38;5;242" byteIndex else byteIndex
  outerStr p.borderStyle ++ formatted ++ outerStr p.borderStyle ++ " "

/-- `Printer::print_position_indicator`. -/
def printPositionIndicator (p : Printer) : Printer :=
  let p1 := if p.headerWasPrinted then p else { p.header with headerWasPrinted := true }
  { p1 with bufferLine := p1.bufferLine ++ positionIndicatorText p1 }

/-- The char-panel loop of `print_textline`: one glyph per raw byte, with
the inner separator appended right after the glyph at position `half`. -/
def charLoopGo (showColor : Bool) (style : BorderStyle) (h : Nat) :
    Nat → List Nat → String
  | _, [] => ""
  | i, b :: bs =>
    byteCharEntry showColor b ++ (if i = h then innerStr style else "") ++
      charLoopGo showColor style h (i + 1) bs

/-- The char panels of a row, starting the position counter at 1 as in the
source. -/
def charPanelText (showColor : Bool) (style : BorderStyle) (h : Nat)
    (bytes : List Nat) : String :=
  charLoopGo showColor style h 1 bytes

/-- The text appended to `buffer_line` by `print_textline` after the hex
section, for a non-empty row (`len ≠ 0`) whose decision is not `Delete`:
padding of the hex panels, the char panels, and padding of the char
panels, with the trailing newline. -/
def textlineTail (showColor : Bool) (style : BorderStyle) (h : Nat)
    (bytes : List Nat) : String :=
  let len := bytes.length
  let hexPad :=
    if len < h then
      spaces (3 * (h - len)) ++ innerStr style ++ spaces (h * 3 + 1) ++ outerStr style
    else
      spaces (3 * (h * 2 - len)) ++ outerStr style
  let charPad :=
    if len < h then
      spaces (h - len) ++ innerStr style ++ spaces h ++ outerStr style ++ "\n"
    else
      spaces (h * 2 - len) ++ outerStr style ++ "\n"
  hexPad ++ charPanelText showColor style h bytes ++ charPad

/-- The blank panels written after the position indicator for the
address-only closing row of an active duplicate run (the `len == 0` branch
of `print_textline`). -/
def blankRowText (style : BorderStyle) (h : Nat) : String :=
  spaces (h * 3) ++ innerStr style ++ spaces (h * 3 + 1) ++ outerStr style ++
    spaces h ++ innerStr style ++ spaces h ++ outerStr style ++ "\n"

/-- The single `*` placeholder row written for `SqueezeAction::Print`
(including the trailing newline). -/
def asteriskLine (showColor : Bool) (style : BorderStyle) (h : Nat) : String :=
  let asterisk := if showColor then ansiPaint "38;5;242" "*" else "*"
  outerStr style ++ asterisk ++ spaces (h - 1) ++ outerStr style ++
    spaces (h * 3 + 1) ++ innerStr style ++ spaces (h * 3 + 1) ++ outerStr style ++
    spaces h ++ innerStr style ++ spaces h ++ outerStr style ++ "\n"

/-- `Printer::print_textline`.  Returns the new state and whether the call
succeeded (`io::Result<()>`): on a sink write failure the early `?` return
skips clearing the row buffers and advancing the squeezer, exactly as in
the source. -/
def printTextline (p : Printer) : Printer × Bool :=
  let h := p.windowSize.half
  let len := p.rawLine.length
  if len = 0 then
    if p.squeezer.active then
      let p1 := p.printPositionIndicator
      let p2 := { p1 with bufferLine := p1.bufferLine ++ blankRowText p1.borderStyle h }
      let ws := p2.sink.writeAll p2.bufferLine
      ({ p2 with sink := ws.1 }, ws.2)
    else (p, true)
  else
    let squeezeAction := p.squeezer.action
    let p1 :=
      if squeezeAction ≠ SqueezeAction.Delete then
        { p with bufferLine := p.bufferLine ++ textlineTail p.showColor p.borderStyle h p.rawLine }
      else p
    let p2 :=
      match squeezeAction with
      | .Print => { p1 with bufferLine := asteriskLine p1.showColor p1.borderStyle h }
      | .Delete => { p1 with bufferLine := "" }
      | .Ignore => p1
    let ws := p2.sink.writeAll p2.bufferLine
    if ws.2 then
      ({ p2 with sink := ws.1, rawLine := [], bufferLine := "", squeezer := p2.squeezer.advance }, true)
    else
      ({ p2 with sink := ws.1 }, false)

/-- `Printer::print_byte`.  Returns `none` where the Rust code panics:
`self.idx % full_window_boundary` is a remainder by zero when the
configured window size is 0.  Otherwise returns the new state and whether
the call succeeded; on failure (propagated from `print_textline`) the
index is not advanced, as the `?` returns before `self.idx += 1`. -/
def printByte (p : Printer) (b : Nat) : Option (Printer × Bool) :=
  let halfWindowBoundary := p.windowSize.half
  let fullWindowBoundary := p.windowSize.full
  if fullWindowBoundary = 0 then none
  else
    let p1 := if p.idx % fullWindowBoundary = 1 then p.printPositionIndicator else p
    let p2 := { p1 with
      bufferLine := p1.bufferLine ++ byteHexEntry p1.showColor b
      rawLine := p1.rawLine ++ [b] }
    let p3 := { p2 with squeezer := p2.squeezer.process p2.windowSize b p2.idx }
    let step :=
      if p3.idx % fullWindowBoundary = halfWindowBoundary then
        ({ p3 with bufferLine := p3.bufferLine ++ innerStr p3.borderStyle ++ " " }, true)
      else if p3.idx % fullWindowBoundary = 0 then
        p3.printTextline
      else (p3, true)
    if step.2 then some ({ step.1 with idx := step.1.idx + 1 }, true)
    else some (step.1, false)

/-- The per-byte feed loop of `print_all`: feeds bytes in order, stopping
at the first failing `print_byte` (the `break 'mainloop` on `res.is_err()`).
Returns the final state, the number of bytes consumed, and whether a
failure stopped the loop; `none` if `print_byte` panicked. -/
def feedAll : Printer → List Nat → Option (Printer × Nat × Bool)
  | p, [] => some (p, 0, false)
  | p, b :: bs =>
    match p.printByte b with
    | none => none
    | some (p1, true) =>
      match p1.feedAll bs with
      | none => none
      | some (p2, k, e) => some (p2, k + 1, e)
    | some (p1, false) => some (p1, 1, true)

/-- `Printer::print_all` over a pure byte source (the chunked reader of
`input.rs` is not under `src/`; logical processing is per byte, so the
source is a `List Nat` that never fails).  After the feed loop the trailing
row is flushed with its failure discarded (`.ok()`), the header is forced
if it never fired, the footer is written, and the function returns `Ok(())`
(`Except.ok ()`); `none` only if `print_byte` panicked. -/
def printAll (p : Printer) (bs : List Nat) :
    Option (Printer × Nat × Except String Unit) :=
  match p.feedAll bs with
  | none => none
  | some (p1, k, _e) =>
    let p2 := (p1.printTextline).1
    let p3 := if !p2.headerWasPrinted then p2.header else p2
    let p4 := p3.footer
    some (p4, k, Except.ok ())

end Printer

/-- Spec-side classification (claim C7's wording, for refinement): 0x00 is
Null; ASCII graphic bytes (0x21 to 0x7e) are printable; the five ASCII
whitespace bytes are whitespace; the remaining bytes below 0x80 are other
control; everything at or above 0x80 is non-ASCII. -/
def specCategory (b : Nat) : ByteCategory :=
  if b = 0 then .Null
  else if 0x21 ≤ b ∧ b ≤ 0x7e then .AsciiPrintable
  else if b = 0x09 ∨ b = 0x0a ∨ b = 0x0c ∨ b = 0x0d ∨ b = 0x20 then .AsciiWhitespace
  else if b < 0x80 then .AsciiOther
  else .NonAscii

/-- Spec-side display glyph (claim C7's wording, for refinement). -/
def specGlyph (b : Nat) : Char :=
  match specCategory b with
  | .Null => '0'
  | .AsciiPrintable => Char.ofNat b
  | .AsciiWhitespace => if b = 0x20 then ' ' else '_'
  | .AsciiOther => '•'
  | .NonAscii => '×'

/-- Number of header lines among the recorded writes: an emitted border
line is a header line exactly when it opens with the header's left corner
glyph (with the Unicode style, data rows open with the outer separator and
the footer with its own corner, so only `Printer.header` produces such a
write). -/
def headerLineCount (out : List String) : Nat :=
  out.countP (fun e => e.data.head? == some '┌')

/-- A recorded write that is exactly one output line: some text of the
given length, free of newlines, followed by one newline. -/
def lineEntry (n : Nat) (e : String) : Prop :=
  ∃ l : String, e = l ++ "\n" ∧ l.data.length = n ∧ '\n' ∉ l.data

/-- The state invariant maintained by the feed loop for the alignment
claim: fixed configuration (Unicode border, no color, window size `2*h`,
display offset, reliable sink), the row in progress sized by the byte
index, the buffered line's exact character count, and every write so far
being one line of `9*h + 8` characters. -/
structure AlignInv (h offset : Nat) (p : Printer) : Prop where
  hpos : 1 ≤ h
  ws : p.windowSize = ⟨2 * h⟩
  style : p.borderStyle = .Unicode
  color : p.showColor = false
  off : p.displayOffset = offset
  plan : p.sink.plan = fun _ => true
  idx1 : 1 ≤ p.idx
  raw : p.rawLine.length = (p.idx - 1) % (2 * h)
  bufE : p.rawLine.length = 0 → p.bufferLine = ""
  bufL : p.rawLine.length ≠ 0 →
    p.bufferLine.data.length = h + 3 + 3 * p.rawLine.length + (if h ≤ p.rawLine.length then 2 else 0)
  bufNl : '\n' ∉ p.bufferLine.data
  outGood : ∀ e ∈ p.sink.out, lineEntry (9 * h + 8) e

/-- The state invariant for the header-once claim: with the Unicode
border, the number of emitted header lines is bounded by the
header-already-emitted flag, and neither the buffered line nor any
non-header write ever contains the header corner glyph. -/
structure HeaderInv (h : Nat) (p : Printer) : Prop where
  hpos : 1 ≤ h
  ws : p.windowSize = ⟨2 * h⟩
  style : p.borderStyle = .Unicode
  color : p.showColor = false
  plan : p.sink.plan = fun _ => true
  idx1 : 1 ≤ p.idx
  raw : p.rawLine.length = (p.idx - 1) % (2 * h)
  cnt : headerLineCount p.sink.out ≤ (if p.headerWasPrinted then 1 else 0)
  buf : '┌' ∉ p.bufferLine.data

/-- The Unicode top border for the default window size 16 (the first line
of the `empty_file_passes` test). -/
def unicodeHeaderLine : String :=
  "┌────────┬─────────────────────────┬─────────────────────────┬────────┬────────┐\n"

/-- The Unicode bottom border for the default window size 16 (the last
line of the `empty_file_passes` test). -/
def unicodeFooterLine : String :=
  "└────────┴─────────────────────────┴─────────────────────────┴────────┴────────┘\n"

/-- The 20 bytes of `"spamspamspamspamspam"`. -/
def spamBytes : List Nat :=
  [0x73, 0x70, 0x61, 0x6d, 0x73, 0x70, 0x61, 0x6d, 0x73, 0x70, 0x61, 0x6d,
   0x73, 0x70, 0x61, 0x6d, 0x73, 0x70, 0x61, 0x6d]

/-- The recorded writes after running `print_all` on empty input with the
configuration of the `empty_file_passes` test. -/
def emptyInputOut : List String :=
  match (Printer.new Sink.ok false .Unicode true).printAll [] with
  | some (q, _, _) => q.sink.out
  | none => []

/-- The recorded writes after running `print_all` on the 20-byte spam
input with display offset `0xdeadbeef` (the `display_offset` test). -/
def displayOffsetOut : List String :=
  match ((Printer.new Sink.ok false .Unicode true).withDisplayOffset 0xdeadbeef).printAll spamBytes with
  | some (q, _, _) => q.sink.out
  | none => []

/-- The recorded writes after an explicit `header()` call followed by one
`print_byte` call on a fresh printer. -/
def doubleHeaderOut : List String :=
  match ((Printer.new Sink.ok false .Unicode true).header).printByte 0x61 with
  | some (q, _) => q.sink.out
  | none => []

/-- The character lengths of the recorded writes after dumping the single
byte `0x61` with display offset `2^32`: the printed address `100000000`
no longer fits the 8-character address column. -/
def overflowOffsetLens : List Nat :=
  match ((Printer.new Sink.ok false .Unicode true).withDisplayOffset (2 ^ 32)).printAll [0x61] with
  | some (q, _, _) => q.sink.out.map String.length
  | none => []

/-- Whether all numbers of a list are equal to each other. -/
def allEqNat : List Nat → Bool
  | [] => true
  | n :: rest => rest.all (fun m => m == n)

/-- A concrete mid-stream printer state with a completed 4-byte row, used
to exercise the duplicate-run decisions of `print_textline`. -/
def rowSample : Printer :=
  { idx := 5
    rawLine := [0x73, 0x70, 0x61, 0x6d]
    bufferLine := "buffered"
    sink := Sink.ok
    showColor := false
    borderStyle := .Unicode
    headerWasPrinted := true
    squeezer := Squeezer.new true
    displayOffset := 0
    windowSize := ⟨16⟩ }

/-- A sink every one of whose writes fails (a closed downstream consumer). -/
def failSink : Sink :=
  ⟨[], fun _ => false, 0⟩

/-- A fresh printer over a reliable sink with window size `2*h` and the
given display offset (color off, Unicode border). -/
def alignedPrinter (h offset : Nat) (sq : Bool) : Printer :=
  ((Printer.new Sink.ok false .Unicode sq).withWindowSize ⟨2 * h⟩).withDisplayOffset offset

/-- 32 zero bytes: two full rows for the default window size. -/
def c9Input : List Nat :=
  List.replicate 32 0

/-- The recorded writes after feeding one byte to a fresh printer with
window size 16 through the per-byte feed loop. -/
def c2RunOut : List String :=
  match (alignedPrinter 8 0 true).feedAll [0x61] with
  | some (q, _, _) => q.sink.out
  | none => []

theorem str_data_append (s t : String) : (s ++ t).data = s.data ++ t.data :=
  String.data_append s t

theorem data_mk (l : List Char) : (String.mk l).data = l := rfl

theorem str_len_append (s t : String) :
    (s ++ t).data.length = s.data.length + t.data.length := by
  rw [str_data_append, List.length_append]

theorem str_mem_append {c : Char} {s t : String} :
    c ∈ (s ++ t).data ↔ c ∈ s.data ∨ c ∈ t.data := by
  rw [str_data_append, List.mem_append]

theorem append_nl_ne_empty (s : String) : s ++ "\n" ≠ "" := by
  intro h
  have h2 := congrArg (fun x => x.data.length) h
  simp only [str_len_append] at h2
  simp at h2

theorem spaces_data (n : Nat) : (spaces n).data = List.replicate n ' ' := rfl

theorem spaces_len (n : Nat) : (spaces n).data.length = n := by
  rw [spaces_data, List.length_replicate]

theorem spaces_not_mem {c : Char} (n : Nat) (hc : c ≠ ' ') : c ∉ (spaces n).data := by
  rw [spaces_data]
  intro h
  exact hc (List.mem_replicate.mp h).2

theorem hexDigitsGo_mem {fuel n : Nat} {c : Char} (h : c ∈ hexDigitsGo fuel n) :
    ∃ k, k < 16 ∧ c = hexDigitChar k := by
  induction fuel generalizing n with
  | zero => simp [hexDigitsGo] at h
  | succ fuel ih =>
    rw [hexDigitsGo] at h
    by_cases hn : n < 16
    · simp [hn] at h
      exact ⟨n, hn, h⟩
    · simp [hn] at h
      rcases h with h | h
      · exact ih h
      · exact ⟨n % 16, Nat.mod_lt n (by omega), h⟩

theorem hexDigits_mem {n : Nat} {c : Char} (h : c ∈ hexDigits n) :
    ∃ k, k < 16 ∧ c = hexDigitChar k :=
  hexDigitsGo_mem h

theorem hexDigitsGo_len {fuel n w : Nat} (hfuel : n < fuel) (hw : 1 ≤ w)
    (hpow : n < 16 ^ w) : (hexDigitsGo fuel n).length ≤ w := by
  induction fuel generalizing n w with
  | zero => omega
  | succ fuel ih =>
    rw [hexDigitsGo]
    by_cases hn : n < 16
    · simp [hn]
      omega
    · simp [hn]
      have hw2 : 2 ≤ w := by
        by_contra hlt
        have hw1 : w = 1 := by omega
        subst hw1
        simp [pow_one] at hpow
        omega
      have hrec : n / 16 < 16 ^ (w - 1) := by
        have : n < 16 ^ (w - 1) * 16 := by
          have : 16 ^ (w - 1) * 16 = 16 ^ w := by
            rw [← pow_succ]
            congr 1
            omega
          omega
        omega
      have hfuel2 : n / 16 < fuel := by omega
      have := ih hfuel2 (by omega) hrec
      omega

theorem hexDigits_len_le {n w : Nat} (hw : 1 ≤ w) (hpow : n < 16 ^ w) :
    (hexDigits n).length ≤ w :=
  hexDigitsGo_len (Nat.lt_succ_self n) hw hpow

theorem zeroPadHex_data (w n : Nat) :
    (zeroPadHex w n).data = List.replicate (w - (hexDigits n).length) '0' ++ hexDigits n := rfl

theorem zeroPadHex_len {w n : Nat} (hw : 1 ≤ w) (hpow : n < 16 ^ w) :
    (zeroPadHex w n).data.length = w := by
  rw [zeroPadHex_data, List.length_append, List.length_replicate]
  have := hexDigits_len_le hw hpow
  omega

theorem zeroPadHex_mem {w n : Nat} {c : Char} (h : c ∈ (zeroPadHex w n).data) :
    c = '0' ∨ ∃ k, k < 16 ∧ c = hexDigitChar k := by
  rw [zeroPadHex_data, List.mem_append] at h
  rcases h with h | h
  · exact Or.inl (List.mem_replicate.mp h).2
  · exact Or.inr (hexDigits_mem h)

theorem hexDigitChar_ne_nl {k : Nat} (hk : k < 16) : hexDigitChar k ≠ '\n' := by
  revert hk
  have : ∀ k : Fin 16, hexDigitChar k.val ≠ '\n' := by decide
  intro hk
  exact this ⟨k, hk⟩

theorem hexDigitChar_ne_corner {k : Nat} (hk : k < 16) : hexDigitChar k ≠ '┌' := by
  revert hk
  have : ∀ k : Fin 16, hexDigitChar k.val ≠ '┌' := by decide
  intro hk
  exact this ⟨k, hk⟩

theorem zeroPadHex_not_mem_nl {w n : Nat} : '\n' ∉ (zeroPadHex w n).data := by
  intro h
  rcases zeroPadHex_mem h with h | ⟨k, hk, h⟩
  · exact absurd h.symm (by decide)
  · exact hexDigitChar_ne_nl hk h.symm

theorem zeroPadHex_not_mem_corner {w n : Nat} : '┌' ∉ (zeroPadHex w n).data := by
  intro h
  rcases zeroPadHex_mem h with h | ⟨k, hk, h⟩
  · exact absurd h.symm (by decide)
  · exact hexDigitChar_ne_corner hk h.symm

theorem category_of_ge_128 {b : Nat} (hb : 128 ≤ b) : Byte.category b = .NonAscii := by
  have h0 : b ≠ 0 := by omega
  have h1 : isAsciiGraphic b = false := by
    simp [isAsciiGraphic]
    omega
  have h2 : isAsciiWhitespace b = false := by
    simp [isAsciiWhitespace]
    omega
  have h3 : isAscii b = false := by
    simp [isAscii]
    omega
  simp [Byte.category, h0, h1, h2, h3]

theorem asChar_ne_nl (b : Nat) : Byte.asChar b ≠ '\n' := by
  by_cases hb : b < 128
  · have h := (by decide : ∀ x : Fin 128, Byte.asChar x.val ≠ '\n') ⟨b, hb⟩
    exact h
  · unfold Byte.asChar
    rw [category_of_ge_128 (by omega)]
    show ('×' : Char) ≠ '\n'
    decide

theorem asChar_ne_corner (b : Nat) : Byte.asChar b ≠ '┌' := by
  by_cases hb : b < 128
  · have h := (by decide : ∀ x : Fin 128, Byte.asChar x.val ≠ '┌') ⟨b, hb⟩
    exact h
  · unfold Byte.asChar
    rw [category_of_ge_128 (by omega)]
    show ('×' : Char) ≠ '┌'
    decide

theorem byteHexEntry_data (b : Nat) :
    (byteHexEntry false b).data = (zeroPadHex 2 b).data ++ [' '] := by
  unfold byteHexEntry
  simp only [Bool.false_eq_true, if_false]
  rw [str_data_append]

theorem byteHexEntry_len (b : Nat) (hb : b < 256) :
    (byteHexEntry false b).data.length = 3 := by
  rw [byteHexEntry_data, List.length_append]
  have : (zeroPadHex 2 b).data.length = 2 :=
    zeroPadHex_len (by omega) (by omega)
  simp [this]

theorem byteHexEntry_not_mem_nl (b : Nat) : '\n' ∉ (byteHexEntry false b).data := by
  rw [byteHexEntry_data, List.mem_append]
  intro h
  rcases h with h | h
  · exact zeroPadHex_not_mem_nl h
  · simp at h

theorem byteHexEntry_not_mem_corner (b : Nat) : '┌' ∉ (byteHexEntry false b).data := by
  rw [byteHexEntry_data, List.mem_append]
  intro h
  rcases h with h | h
  · exact zeroPadHex_not_mem_corner h
  · simp at h

theorem byteCharEntry_data (b : Nat) :
    (byteCharEntry false b).data = [Byte.asChar b] := rfl

theorem charLoopGo_len (h : Nat) (bytes : List Nat) (i : Nat) (hi : 1 ≤ i) :
    (Printer.charLoopGo false .Unicode h i bytes).data.length =
      bytes.length + (if i ≤ h ∧ h < i + bytes.length then 1 else 0) := by
  induction bytes generalizing i with
  | nil =>
    have hc : ¬ (i ≤ h ∧ h < i) := by omega
    simp [Printer.charLoopGo, hc, String.data]
  | cons b rest ih =>
    rw [Printer.charLoopGo, str_len_append, str_len_append, byteCharEntry_data,
      ih (i + 1) (by omega)]
    by_cases hih : i = h
    · rw [if_pos hih]
      have h1 : ¬ (i + 1 ≤ h ∧ h < i + 1 + rest.length) := by omega
      have h2 : i ≤ h ∧ h < i + (b :: rest).length := by
        simp only [List.length_cons]
        omega
      rw [if_neg h1, if_pos h2]
      simp [innerStr]
      omega
    · rw [if_neg hih]
      simp only [List.length_cons]
      by_cases h4 : i + 1 ≤ h ∧ h < i + 1 + rest.length
      · rw [if_pos h4, if_pos (by omega : i ≤ h ∧ h < i + (rest.length + 1))]
        simp [String.data]
        omega
      · rw [if_neg h4, if_neg (by omega : ¬ (i ≤ h ∧ h < i + (rest.length + 1)))]
        simp [String.data]
        omega

theorem charPanelText_len (h : Nat) (bytes : List Nat) (hh : 1 ≤ h) :
    (Printer.charPanelText false .Unicode h bytes).data.length =
      bytes.length + (if h ≤ bytes.length then 1 else 0) := by
  rw [Printer.charPanelText, charLoopGo_len h bytes 1 (le_refl 1)]
  by_cases hc : h ≤ bytes.length
  · rw [if_pos hc, if_pos (by omega)]
  · rw [if_neg hc, if_neg (by omega)]

theorem charLoopGo_not_mem_nl (h : Nat) (bytes : List Nat) (i : Nat) :
    '\n' ∉ (Printer.charLoopGo false .Unicode h i bytes).data := by
  induction bytes generalizing i with
  | nil => simp [Printer.charLoopGo, String.data]
  | cons b rest ih =>
    rw [Printer.charLoopGo]
    intro hmem
    rw [str_mem_append, str_mem_append, byteCharEntry_data] at hmem
    rcases hmem with (hmem | hmem) | hmem
    · simp at hmem
      exact asChar_ne_nl b hmem.symm
    · by_cases hih : i = h
      · rw [if_pos hih] at hmem
        simp [innerStr, BorderStyle.innerSep] at hmem
      · rw [if_neg hih] at hmem
        simp [String.data] at hmem
    · exact ih (i + 1) hmem

theorem charLoopGo_not_mem_corner (h : Nat) (bytes : List Nat) (i : Nat) :
    '┌' ∉ (Printer.charLoopGo false .Unicode h i bytes).data := by
  induction bytes generalizing i with
  | nil => simp [Printer.charLoopGo, String.data]
  | cons b rest ih =>
    rw [Printer.charLoopGo]
    intro hmem
    rw [str_mem_append, str_mem_append, byteCharEntry_data] at hmem
    rcases hmem with (hmem | hmem) | hmem
    · simp at hmem
      exact asChar_ne_corner b hmem.symm
    · by_cases hih : i = h
      · rw [if_pos hih] at hmem
        simp [innerStr, BorderStyle.innerSep] at hmem
      · rw [if_neg hih] at hmem
        simp [String.data] at hmem
    · exact ih (i + 1) hmem

theorem outerStr_unicode_data : (outerStr .Unicode).data = ['│'] := rfl

theorem innerStr_unicode_data : (innerStr .Unicode).data = ['┊'] := rfl

theorem not_mem_append_str {c : Char} {s t : String} (hs : c ∉ s.data)
    (ht : c ∉ t.data) : c ∉ (s ++ t).data := by
  rw [str_mem_append]
  rintro (h | h)
  · exact hs h
  · exact ht h

theorem textlineTail_line (h : Nat) (bytes : List Nat) (hh : 1 ≤ h)
    (h1 : 1 ≤ bytes.length) (h2 : bytes.length ≤ 2 * h) :
    ∃ t : String, Printer.textlineTail false .Unicode h bytes = t ++ "\n" ∧
      t.data.length + (h + 3 + 3 * bytes.length +
        (if h ≤ bytes.length then 2 else 0)) = 9 * h + 8 ∧
      '\n' ∉ t.data ∧ '┌' ∉ t.data := by
  simp only [Printer.textlineTail]
  by_cases hlt : bytes.length < h
  · rw [if_pos hlt, if_pos hlt]
    refine ⟨spaces (3 * (h - bytes.length)) ++ innerStr .Unicode ++
        spaces (h * 3 + 1) ++ outerStr .Unicode ++
        Printer.charPanelText false .Unicode h bytes ++
        (spaces (h - bytes.length) ++ innerStr .Unicode ++ spaces h ++
          outerStr .Unicode), ?_, ?_, ?_, ?_⟩
    · simp only [String.append_assoc]
    · simp only [str_len_append, spaces_len, outerStr_unicode_data, innerStr_unicode_data,
        List.length_cons, List.length_nil, charPanelText_len h bytes hh]
      have hif : ¬ (h ≤ bytes.length) := by omega
      rw [if_neg hif, if_neg hif]
      omega
    · repeat' apply not_mem_append_str
      all_goals first
        | exact spaces_not_mem _ (by decide)
        | exact charLoopGo_not_mem_nl h bytes 1
        | decide
    · repeat' apply not_mem_append_str
      all_goals first
        | exact spaces_not_mem _ (by decide)
        | exact charLoopGo_not_mem_corner h bytes 1
        | decide
  · rw [if_neg hlt, if_neg hlt]
    refine ⟨spaces (3 * (h * 2 - bytes.length)) ++ outerStr .Unicode ++
        Printer.charPanelText false .Unicode h bytes ++
        (spaces (h * 2 - bytes.length) ++ outerStr .Unicode), ?_, ?_, ?_, ?_⟩
    · simp only [String.append_assoc]
    · simp only [str_len_append, spaces_len, outerStr_unicode_data,
        List.length_cons, List.length_nil, charPanelText_len h bytes hh]
      have hif : h ≤ bytes.length := by omega
      rw [if_pos hif, if_pos hif]
      omega
    · repeat' apply not_mem_append_str
      all_goals first
        | exact spaces_not_mem _ (by decide)
        | exact charLoopGo_not_mem_nl h bytes 1
        | decide
    · repeat' apply not_mem_append_str
      all_goals first
        | exact spaces_not_mem _ (by decide)
        | exact charLoopGo_not_mem_corner h bytes 1
        | decide

theorem asteriskLine_line (h : Nat) (hh : 1 ≤ h) :
    ∃ t : String, Printer.asteriskLine false .Unicode h = t ++ "\n" ∧
      t.data.length = 9 * h + 8 ∧ '\n' ∉ t.data ∧ '┌' ∉ t.data ∧
      t.data.head? = some '│' := by
  simp only [Printer.asteriskLine]
  refine ⟨outerStr .Unicode ++ "*" ++ spaces (h - 1) ++ outerStr .Unicode ++
      spaces (h * 3 + 1) ++ innerStr .Unicode ++ spaces (h * 3 + 1) ++
      outerStr .Unicode ++ spaces h ++ innerStr .Unicode ++ spaces h ++
      outerStr .Unicode, ?_, ?_, ?_, ?_, ?_⟩
  · simp only [Bool.false_eq_true, if_false, String.append_assoc]
  · simp only [str_len_append, spaces_len, outerStr_unicode_data, innerStr_unicode_data,
      List.length_cons, List.length_nil]
    have : ("*" : String).data.length = 1 := rfl
    omega
  · repeat' apply not_mem_append_str
    all_goals first
      | exact spaces_not_mem _ (by decide)
      | decide
  · repeat' apply not_mem_append_str
    all_goals first
      | exact spaces_not_mem _ (by decide)
      | decide
  · simp only [str_data_append, outerStr_unicode_data]
    rfl

theorem blankRowText_line (h : Nat) :
    ∃ t : String, Printer.blankRowText .Unicode h = t ++ "\n" ∧
      t.data.length = 8 * h + 5 ∧ '\n' ∉ t.data ∧ '┌' ∉ t.data := by
  simp only [Printer.blankRowText]
  refine ⟨spaces (h * 3) ++ innerStr .Unicode ++ spaces (h * 3 + 1) ++
      outerStr .Unicode ++ spaces h ++ innerStr .Unicode ++ spaces h ++
      outerStr .Unicode, ?_, ?_, ?_, ?_⟩
  · simp only [String.append_assoc]
  · simp only [str_len_append, spaces_len, outerStr_unicode_data, innerStr_unicode_data,
      List.length_cons, List.length_nil]
    omega
  · repeat' apply not_mem_append_str
    all_goals first
      | exact spaces_not_mem _ (by decide)
      | decide
  · repeat' apply not_mem_append_str
    all_goals first
      | exact spaces_not_mem _ (by decide)
      | decide

theorem replicate_not_mem {c a : Char} (n : Nat) (h : c ≠ a) :
    c ∉ (String.mk (List.replicate n a)).data := by
  intro hmem
  exact h (List.mem_replicate.mp hmem).2

theorem borderLineOf_line (w : WindowSize) (be : BorderElements)
    (hbe : be.leftCorner ≠ '\n' ∧ be.horizontalLine ≠ '\n' ∧
      be.columnSeparator ≠ '\n' ∧ be.rightCorner ≠ '\n') :
    ∃ t : String, Printer.borderLineOf w be = t ++ "\n" ∧
      t.data.length = 9 * w.half + 8 ∧ '\n' ∉ t.data ∧
      t.data.head? = some be.leftCorner := by
  simp only [Printer.borderLineOf]
  refine ⟨String.mk [be.leftCorner] ++ String.mk (List.replicate w.half be.horizontalLine) ++
      String.mk [be.columnSeparator] ++ String.mk (List.replicate (w.half * 3 + 1) be.horizontalLine) ++
      String.mk [be.columnSeparator] ++ String.mk (List.replicate (w.half * 3 + 1) be.horizontalLine) ++
      String.mk [be.columnSeparator] ++ String.mk (List.replicate w.half be.horizontalLine) ++
      String.mk [be.columnSeparator] ++ String.mk (List.replicate w.half be.horizontalLine) ++
      String.mk [be.rightCorner], ?_, ?_, ?_, ?_⟩
  · simp only [String.append_assoc]
  · simp only [str_len_append, List.length_replicate, List.length_cons, List.length_nil]
    omega
  · repeat' apply not_mem_append_str
    all_goals intro hmem
    all_goals simp only [data_mk, List.mem_singleton, List.mem_replicate] at hmem
    all_goals first
      | exact hbe.1 hmem.symm
      | exact hbe.2.1 hmem.2.symm
      | exact hbe.2.2.1 hmem.symm
      | exact hbe.2.2.2 hmem.symm
  · simp only [str_data_append]
    rfl

theorem ne_empty_of_data_len {s : String} (h : s.data.length ≠ 0) : s ≠ "" := by
  intro he
  subst he
  simp at h

theorem positionIndicatorText_eq (p : Printer) (hc : p.showColor = false) :
    Printer.positionIndicatorText p = outerStr p.borderStyle ++
      zeroPadHex p.windowSize.half ((p.idx - 1 + p.displayOffset) % 2 ^ 64) ++
      outerStr p.borderStyle ++ " " := by
  simp only [Printer.positionIndicatorText, hc, Bool.false_eq_true, if_false]

theorem positionIndicatorText_line (p : Printer) (hc : p.showColor = false)
    (hsty : p.borderStyle = .Unicode) (hh : 1 ≤ p.windowSize.half)
    (hfit : (p.idx - 1 + p.displayOffset) % 2 ^ 64 < 16 ^ p.windowSize.half) :
    (Printer.positionIndicatorText p).data.length = p.windowSize.half + 3 ∧
    '\n' ∉ (Printer.positionIndicatorText p).data ∧
    '┌' ∉ (Printer.positionIndicatorText p).data := by
  rw [positionIndicatorText_eq p hc, hsty]
  refine ⟨?_, ?_, ?_⟩
  · simp only [str_len_append, outerStr_unicode_data, zeroPadHex_len hh hfit,
      List.length_cons, List.length_nil]
    have : (" " : String).data.length = 1 := rfl
    omega
  · refine not_mem_append_str (not_mem_append_str (not_mem_append_str ?_ ?_) ?_) ?_
    · decide
    · exact zeroPadHex_not_mem_nl
    · decide
    · decide
  · refine not_mem_append_str (not_mem_append_str (not_mem_append_str ?_ ?_) ?_) ?_
    · decide
    · exact zeroPadHex_not_mem_corner
    · decide
    · decide

theorem writeAll_empty (s : Sink) : s.writeAll "" = (s, true) := by
  simp [Sink.writeAll]

theorem writeAll_ok (s : Sink) (txt : String) (hp : s.plan = fun _ => true)
    (ht : txt ≠ "") :
    s.writeAll txt = ({ s with out := s.out ++ [txt], count := s.count + 1 }, true) := by
  unfold Sink.writeAll
  rw [if_neg ht, hp]
  simp

theorem borderLineOf_ne_empty (w : WindowSize) (be : BorderElements) :
    Printer.borderLineOf w be ≠ "" := by
  simp only [Printer.borderLineOf]
  exact append_nl_ne_empty _

theorem header_spec (p : Printer) (hp : p.sink.plan = fun _ => true)
    (hsty : p.borderStyle = .Unicode) :
    p.header = { p with sink := { p.sink with
      out := p.sink.out ++ [Printer.borderLineOf p.windowSize ⟨'┌', '─', '┬', '┐'⟩],
      count := p.sink.count + 1 } } := by
  unfold Printer.header
  rw [hsty]
  simp only [BorderStyle.headerElems]
  rw [writeAll_ok _ _ hp (borderLineOf_ne_empty _ _)]

theorem footer_spec (p : Printer) (hp : p.sink.plan = fun _ => true)
    (hsty : p.borderStyle = .Unicode) :
    p.footer = { p with sink := { p.sink with
      out := p.sink.out ++ [Printer.borderLineOf p.windowSize ⟨'└', '─', '┴', '┘'⟩],
      count := p.sink.count + 1 } } := by
  unfold Printer.footer
  rw [hsty]
  simp only [BorderStyle.footerElems]
  rw [writeAll_ok _ _ hp (borderLineOf_ne_empty _ _)]

theorem printPositionIndicator_spec (p : Printer) (hp : p.sink.plan = fun _ => true)
    (hsty : p.borderStyle = .Unicode) :
    (p.printPositionIndicator).bufferLine = p.bufferLine ++ Printer.positionIndicatorText p ∧
    (p.printPositionIndicator).idx = p.idx ∧
    (p.printPositionIndicator).rawLine = p.rawLine ∧
    (p.printPositionIndicator).squeezer = p.squeezer ∧
    (p.printPositionIndicator).windowSize = p.windowSize ∧
    (p.printPositionIndicator).borderStyle = p.borderStyle ∧
    (p.printPositionIndicator).showColor = p.showColor ∧
    (p.printPositionIndicator).displayOffset = p.displayOffset ∧
    (p.printPositionIndicator).headerWasPrinted = true ∧
    (p.printPositionIndicator).sink.plan = p.sink.plan ∧
    (p.printPositionIndicator).sink.out = p.sink.out ++
      (if p.headerWasPrinted then []
        else [Printer.borderLineOf p.windowSize ⟨'┌', '─', '┬', '┐'⟩]) := by
  unfold Printer.printPositionIndicator
  by_cases hflag : p.headerWasPrinted
  · rw [if_pos hflag]
    simp [hflag]
  · rw [if_neg hflag, header_spec p hp hsty]
    rw [if_neg (by simp [hflag])]
    refine ⟨?_, rfl, rfl, rfl, rfl, rfl, rfl, rfl, rfl, rfl, rfl⟩
    simp only [Printer.positionIndicatorText]

theorem textlineTail_ne_empty (h : Nat) (bytes : List Nat) (hh : 1 ≤ h)
    (h1 : 1 ≤ bytes.length) (h2 : bytes.length ≤ 2 * h) :
    Printer.textlineTail false .Unicode h bytes ≠ "" := by
  obtain ⟨t, heq, _, _, _⟩ := textlineTail_line h bytes hh h1 h2
  rw [heq]
  exact append_nl_ne_empty t

theorem asteriskLine_ne_empty (h : Nat) (hh : 1 ≤ h) :
    Printer.asteriskLine false .Unicode h ≠ "" := by
  obtain ⟨t, heq, _, _, _, _⟩ := asteriskLine_line h hh
  rw [heq]
  exact append_nl_ne_empty t

theorem append_ne_empty_right (s t : String) (ht : t ≠ "") : s ++ t ≠ "" := by
  intro h
  apply ht
  have h2 : (s ++ t).data.length = 0 := by rw [h]; rfl
  rw [str_len_append] at h2
  have h3 : t.data = [] := List.length_eq_zero.mp (by omega)
  cases t
  cases h3
  rfl

theorem printTextline_step (p : Printer) (hp : p.sink.plan = fun _ => true)
    (hraw : p.rawLine ≠ []) (hsty : p.borderStyle = .Unicode)
    (hcolor : p.showColor = false) (hh : 1 ≤ p.windowSize.half)
    (hlen2 : p.rawLine.length ≤ 2 * p.windowSize.half) :
    ∃ q : Printer, p.printTextline = (q, true) ∧
      q.rawLine = [] ∧ q.bufferLine = "" ∧ q.squeezer = p.squeezer.advance ∧
      q.idx = p.idx ∧ q.headerWasPrinted = p.headerWasPrinted ∧
      q.windowSize = p.windowSize ∧ q.borderStyle = p.borderStyle ∧
      q.showColor = p.showColor ∧ q.displayOffset = p.displayOffset ∧
      q.sink.plan = p.sink.plan ∧
      q.sink.out = p.sink.out ++
        (match p.squeezer.action with
         | SqueezeAction.Delete => []
         | SqueezeAction.Print => [Printer.asteriskLine false .Unicode p.windowSize.half]
         | SqueezeAction.Ignore =>
             [p.bufferLine ++ Printer.textlineTail false .Unicode p.windowSize.half p.rawLine]) := by
  have hlen : ¬ (p.rawLine.length = 0) := fun h => hraw (List.length_eq_zero.mp h)
  have hlen1 : 1 ≤ p.rawLine.length := by omega
  cases hact : p.squeezer.action with
  | Ignore =>
    simp only [Printer.printTextline, hact, if_neg hlen, hsty, hcolor, ne_eq,
      if_pos (show ¬ SqueezeAction.Ignore = SqueezeAction.Delete from by decide)]
    rw [writeAll_ok _ _ hp
      (append_ne_empty_right _ _ (textlineTail_ne_empty _ _ hh hlen1 hlen2))]
    refine ⟨_, rfl, ?_, ?_, ?_, ?_, ?_, ?_, ?_, ?_, ?_, ?_, ?_⟩ <;> simp [hsty, hcolor]
  | Print =>
    simp only [Printer.printTextline, hact, if_neg hlen, hsty, hcolor, ne_eq,
      if_pos (show ¬ SqueezeAction.Print = SqueezeAction.Delete from by decide)]
    rw [writeAll_ok _ _ hp (asteriskLine_ne_empty _ hh)]
    refine ⟨_, rfl, ?_, ?_, ?_, ?_, ?_, ?_, ?_, ?_, ?_, ?_, ?_⟩ <;> simp [hsty, hcolor]
  | Delete =>
    simp only [Printer.printTextline, hact, if_neg hlen, hsty, hcolor, ne_eq,
      if_neg (show ¬ ¬ SqueezeAction.Delete = SqueezeAction.Delete from by decide)]
    rw [writeAll_empty]
    refine ⟨_, rfl, ?_, ?_, ?_, ?_, ?_, ?_, ?_, ?_, ?_, ?_, ?_⟩ <;> simp [hsty, hcolor]

theorem printByte_step (p : Printer) (b : Nat) (hp : p.sink.plan = fun _ => true)
    (hsty : p.borderStyle = .Unicode) (hcolor : p.showColor = false)
    (heven : p.windowSize.val % 2 = 0) (hpos : 1 ≤ p.windowSize.half)
    (hflush : p.idx % p.windowSize.full = 0 → p.rawLine.length + 1 ≤ 2 * p.windowSize.half) :
    ∃ q : Printer, p.printByte b = some (q, true) ∧
      q.idx = p.idx + 1 ∧
      q.windowSize = p.windowSize ∧ q.borderStyle = p.borderStyle ∧
      q.showColor = p.showColor ∧ q.displayOffset = p.displayOffset ∧
      q.sink.plan = p.sink.plan ∧
      q.headerWasPrinted = (p.headerWasPrinted || decide (p.idx % p.windowSize.full = 1)) ∧
      q.rawLine = (if p.idx % p.windowSize.full = 0 then [] else p.rawLine ++ [b]) ∧
      q.squeezer = (if p.idx % p.windowSize.full = 0
        then (p.squeezer.process p.windowSize b p.idx).advance
        else p.squeezer.process p.windowSize b p.idx) ∧
      q.bufferLine = (if p.idx % p.windowSize.full = 0 then "" else
        (if p.idx % p.windowSize.full = 1
          then p.bufferLine ++ Printer.positionIndicatorText p else p.bufferLine) ++
        byteHexEntry false b ++
        (if p.idx % p.windowSize.full = p.windowSize.half
          then innerStr .Unicode ++ " " else "")) ∧
      q.sink.out = p.sink.out ++
        (if p.idx % p.windowSize.full = 1 ∧ ¬ p.headerWasPrinted
          then [Printer.borderLineOf p.windowSize ⟨'┌', '─', '┬', '┐'⟩] else []) ++
        (if p.idx % p.windowSize.full = 0 then
          (match (p.squeezer.process p.windowSize b p.idx).action with
           | SqueezeAction.Delete => []
           | SqueezeAction.Print => [Printer.asteriskLine false .Unicode p.windowSize.half]
           | SqueezeAction.Ignore => [p.bufferLine ++ byteHexEntry false b ++
               Printer.textlineTail false .Unicode p.windowSize.half (p.rawLine ++ [b])])
          else []) := by
  have hfull : p.windowSize.full ≠ 0 := by
    unfold WindowSize.full
    unfold WindowSize.half at hpos
    omega
  by_cases hA : p.idx % p.windowSize.full = 1
  · have hC : ¬ (p.idx % p.windowSize.full = 0) := by omega
    obtain ⟨i1, i2, i3, i4, i5, i6, i7, i8, i9, i10, i11⟩ :=
      printPositionIndicator_spec p hp hsty
    by_cases hB : p.idx % p.windowSize.full = p.windowSize.half
    · have hhalf1 : p.windowSize.half = 1 := by omega
      simp only [Printer.printByte, if_neg hfull, if_pos hA, i1, i2, i3, i4, i5,
        i6, i7, i8, i9, i10, i11, hcolor, hsty]
      rw [if_pos hB]
      refine ⟨_, rfl, ?_, ?_, ?_, ?_, ?_, ?_, ?_, ?_, ?_, ?_, ?_⟩ <;>
        (simp [hA, hC, hhalf1, i1, i2, i3, i4, i5, i6, i7, i8, i9, i10, i11, hsty, hcolor,
          String.append_assoc]
         try (cases hw : p.headerWasPrinted <;> simp [hw]))
    · have hB1 : ¬ ((1 : Nat) = p.windowSize.half) := by omega
      simp only [Printer.printByte, if_neg hfull, if_pos hA, i1, i2, i3, i4, i5,
        i6, i7, i8, i9, i10, i11, hcolor, hsty]
      rw [if_neg hB, if_neg hC]
      refine ⟨_, rfl, ?_, ?_, ?_, ?_, ?_, ?_, ?_, ?_, ?_, ?_, ?_⟩ <;>
        (simp [hA, hB, hB1, hC, i1, i2, i3, i4, i5, i6, i7, i8, i9, i10, i11, hsty, hcolor,
          String.append_assoc]
         try (cases hw : p.headerWasPrinted <;> simp [hw]))
  · by_cases hB : p.idx % p.windowSize.full = p.windowSize.half
    · have hC : ¬ (p.idx % p.windowSize.full = 0) := by omega
      have hh0 : ¬ (p.windowSize.half = 0) := by omega
      have hB1 : ¬ (p.windowSize.half = 1) := by omega
      simp only [Printer.printByte, if_neg hfull, if_neg hA, hcolor, hsty]
      rw [if_pos hB]
      refine ⟨_, rfl, ?_, ?_, ?_, ?_, ?_, ?_, ?_, ?_, ?_, ?_, ?_⟩ <;>
        (simp [hA, hB, hC, hh0, hB1, hsty, hcolor, String.append_assoc]
         try (cases hw : p.headerWasPrinted <;> simp [hw]))
    · by_cases hC : p.idx % p.windowSize.full = 0
      · have hz1 : ¬ ((0 : Nat) = p.windowSize.half) := by omega
        simp only [Printer.printByte, if_neg hfull, if_neg hA, hcolor, hsty]
        rw [if_neg hB, if_pos hC]
        obtain ⟨q, hq, j1, j2, j3, j4, j5, j6, j7, j8, j9, j10, j11⟩ :=
          printTextline_step
            { idx := p.idx, rawLine := p.rawLine ++ [b],
              bufferLine := p.bufferLine ++ byteHexEntry false b,
              sink := p.sink, showColor := false,
              borderStyle := BorderStyle.Unicode,
              headerWasPrinted := p.headerWasPrinted,
              squeezer := p.squeezer.process p.windowSize b p.idx,
              displayOffset := p.displayOffset, windowSize := p.windowSize }
            hp (by simp) rfl rfl hpos (by simpa using hflush hC)
        rw [hq]
        refine ⟨_, rfl, ?_, ?_, ?_, ?_, ?_, ?_, ?_, ?_, ?_, ?_, ?_⟩ <;>
          (simp [hA, hB, hC, hz1, j1, j2, j3, j4, j5, j6, j7, j8, j9, j10, j11, hsty, hcolor,
            String.append_assoc]
           try (cases hw : p.headerWasPrinted <;> simp [hw]))
      · simp only [Printer.printByte, if_neg hfull, if_neg hA, hcolor, hsty]
        rw [if_neg hB, if_neg hC]
        refine ⟨_, rfl, ?_, ?_, ?_, ?_, ?_, ?_, ?_, ?_, ?_, ?_, ?_⟩ <;>
          (simp [hA, hB, hC, hsty, hcolor, String.append_assoc]
           try (cases hw : p.headerWasPrinted <;> simp [hw]))

theorem mod_succ_char {a n : Nat} (hn : n ≠ 0) :
    (a + 1) % n = if a % n + 1 = n then 0 else a % n + 1 := by
  conv_lhs => rw [← Nat.div_add_mod a n, Nat.add_assoc]
  rw [Nat.mul_add_mod]
  by_cases he : a % n + 1 = n
  · rw [if_pos he, he, Nat.mod_self]
  · have h1 : a % n < n := Nat.mod_lt _ (Nat.pos_of_ne_zero hn)
    rw [if_neg he, Nat.mod_eq_of_lt (by omega)]

theorem windowSize_half_two_mul (h : Nat) : (⟨2 * h⟩ : WindowSize).half = h := by
  simp [WindowSize.half]

theorem alignInv_step {h offset : Nat} {p : Printer} (inv : AlignInv h offset p)
    (b : Nat) (hb : b < 256)
    (hfit : p.idx - 1 + offset < 16 ^ h) (hfit2 : p.idx - 1 + offset < 2 ^ 64) :
    ∃ q, p.printByte b = some (q, true) ∧ AlignInv h offset q ∧ q.idx = p.idx + 1 := by
  have hh := inv.hpos
  have hidx := inv.idx1
  have hhalf : p.windowSize.half = h := by rw [inv.ws]; exact windowSize_half_two_mul h
  have hfull : p.windowSize.full = 2 * h := by rw [inv.ws]; rfl
  have hmod := mod_succ_char (a := p.idx - 1) (n := 2 * h) (by omega)
  have hidxe : p.idx - 1 + 1 = p.idx := by omega
  rw [hidxe] at hmod
  have hraw := inv.raw
  have hflush : p.idx % p.windowSize.full = 0 → p.rawLine.length + 1 ≤ 2 * p.windowSize.half := by
    intro hc
    rw [hfull] at hc
    rw [hhalf]
    by_cases hcond : (p.idx - 1) % (2 * h) + 1 = 2 * h
    · omega
    · rw [if_neg hcond] at hmod
      omega
  have hfitm : (p.idx - 1 + p.displayOffset) % 2 ^ 64 < 16 ^ p.windowSize.half := by
    rw [inv.off, hhalf, Nat.mod_eq_of_lt hfit2]
    exact hfit
  obtain ⟨ind1, ind2, ind3⟩ :=
    positionIndicatorText_line p inv.color inv.style (by rw [hhalf]; exact hh) hfitm
  obtain ⟨q, hq, e1, e2, e3, e4, e5, e6, e7, e8, e9, e10, e11⟩ :=
    printByte_step p b inv.plan inv.style inv.color
      (by rw [inv.ws]; show 2 * h % 2 = 0; omega) (by rw [hhalf]; exact hh) hflush
  refine ⟨q, hq, ?_, e1⟩
  have hdrEntry : lineEntry (9 * h + 8)
      (Printer.borderLineOf p.windowSize ⟨'┌', '─', '┬', '┐'⟩) := by
    obtain ⟨t, heq, hlen, hnl, _⟩ := borderLineOf_line p.windowSize
      ⟨'┌', '─', '┬', '┐'⟩ (by refine ⟨?_, ?_, ?_, ?_⟩ <;> decide)
    rw [heq]
    exact ⟨t, rfl, by rw [hlen, hhalf], hnl⟩
  by_cases hC : p.idx % p.windowSize.full = 0
  · have hcond : (p.idx - 1) % (2 * h) + 1 = 2 * h := by
      by_cases hcond2 : (p.idx - 1) % (2 * h) + 1 = 2 * h
      · exact hcond2
      · rw [if_neg hcond2] at hmod
        rw [hfull] at hC
        omega
    have hrawlen : p.rawLine.length = 2 * h - 1 := by omega
    have hA : ¬ (p.idx % p.windowSize.full = 1) := by
      rw [hfull]
      rw [hfull] at hC
      omega
    constructor
    · exact hh
    · rw [e2, inv.ws]
    · rw [e3, inv.style]
    · rw [e4, inv.color]
    · rw [e5, inv.off]
    · rw [e6, inv.plan]
    · omega
    · rw [e8, if_pos hC, e1]
      simp
      rw [hfull] at hC
      omega
    · intro
      rw [e10, if_pos hC]
    · intro hcontra
      rw [e8, if_pos hC] at hcontra
      simp at hcontra
    · rw [e10, if_pos hC]
      simp
    · intro e he
      rw [e11, if_neg (by simp [hA]), if_pos hC] at he
      simp only [List.append_nil] at he
      rw [List.mem_append] at he
      rcases he with he | he
      · exact inv.outGood e he
      · cases hact : (p.squeezer.process p.windowSize b p.idx).action <;> rw [hact] at he
        · -- Ignore: the full-row entry
          simp only [List.mem_singleton] at he
          subst he
          obtain ⟨t, heq, hlen, hnl, _⟩ := textlineTail_line h (p.rawLine ++ [b]) hh
            (by simp) (by simp; omega)
          rw [hhalf, heq, ← String.append_assoc]
          refine ⟨p.bufferLine ++ byteHexEntry false b ++ t, rfl, ?_, ?_⟩
          · rw [str_len_append, str_len_append]
            have hbuf := inv.bufL (by omega)
            rw [byteHexEntry_len b hb]
            simp only [List.length_append, List.length_cons, List.length_nil] at hlen
            have hle1 : h ≤ p.rawLine.length := by omega
            rw [if_pos hle1] at hbuf
            have hle2 : h ≤ p.rawLine.length + 1 := by omega
            rw [if_pos hle2] at hlen
            omega
          · refine not_mem_append_str (not_mem_append_str inv.bufNl ?_) hnl
            exact byteHexEntry_not_mem_nl b
        · -- Print: the asterisk placeholder
          simp only [List.mem_singleton] at he
          subst he
          obtain ⟨t, heq, hlen, hnl, _, _⟩ := asteriskLine_line h hh
          rw [hhalf, heq]
          exact ⟨t, rfl, hlen, hnl⟩
        · simp at he
  · have hrawlt : p.rawLine.length + 1 ≤ 2 * h - 1 + 1 := by
      have := Nat.mod_lt (p.idx - 1) (y := 2 * h) (by omega)
      omega
    have hnotflushcond : ¬ ((p.idx - 1) % (2 * h) + 1 = 2 * h) := by
      intro hcond
      rw [if_pos hcond] at hmod
      rw [hfull] at hC
      omega
    rw [if_neg hnotflushcond] at hmod
    have hidxmod : p.idx % (2 * h) = p.rawLine.length + 1 := by omega
    have hAiff : p.idx % p.windowSize.full = 1 ↔ p.rawLine.length = 0 := by
      rw [hfull]
      omega
    have hBiff : p.idx % p.windowSize.full = p.windowSize.half ↔ p.rawLine.length + 1 = h := by
      rw [hfull, hhalf]
      omega
    have hinner : (innerStr BorderStyle.Unicode ++ " ").data.length = 2 := rfl
    have hinnernl : '\n' ∉ (innerStr BorderStyle.Unicode ++ " ").data := by decide
    have hemptynl : '\n' ∉ ("" : String).data := by decide
    constructor
    · exact hh
    · rw [e2, inv.ws]
    · rw [e3, inv.style]
    · rw [e4, inv.color]
    · rw [e5, inv.off]
    · rw [e6, inv.plan]
    · omega
    · rw [e8, if_neg hC, e1]
      simp
      omega
    · intro hcontra
      rw [e8, if_neg hC] at hcontra
      simp at hcontra
    · intro
      rw [e10, if_neg hC, e8, if_neg hC]
      have hempty0 : ("" : String).data.length = 0 := rfl
      by_cases hA : p.idx % p.windowSize.full = 1
      · have hraw0 : p.rawLine.length = 0 := hAiff.mp hA
        have hbufe : p.bufferLine = "" := inv.bufE hraw0
        have hBh : p.idx % p.windowSize.full = p.windowSize.half ↔ h = 1 := by
          rw [hBiff]
          omega
        rw [if_pos hA, hbufe]
        by_cases hB : p.idx % p.windowSize.full = p.windowSize.half
        · have hBl : h = 1 := hBh.mp hB
          rw [if_pos hB]
          simp only [str_len_append, ind1, hhalf, byteHexEntry_len b hb, hinner, hempty0,
            List.length_append, List.length_cons, List.length_nil, hraw0]
          repeat' split
          all_goals omega
        · have hBl : ¬ (h = 1) := fun hcontra => hB (hBh.mpr hcontra)
          rw [if_neg hB]
          simp only [str_len_append, ind1, hhalf, byteHexEntry_len b hb, hempty0,
            List.length_append, List.length_cons, List.length_nil, hraw0]
          repeat' split
          all_goals omega
      · have hrawne : p.rawLine.length ≠ 0 := fun hcontra => hA (hAiff.mpr hcontra)
        have hbufl := inv.bufL hrawne
        rw [if_neg hA]
        by_cases hB : p.idx % p.windowSize.full = p.windowSize.half
        · have hBl : p.rawLine.length + 1 = h := hBiff.mp hB
          rw [if_pos hB]
          simp only [str_len_append, byteHexEntry_len b hb, hinner, hbufl,
            List.length_append, List.length_cons, List.length_nil]
          repeat' split
          all_goals omega
        · have hBl : ¬ (p.rawLine.length + 1 = h) := fun hcontra => hB (hBiff.mpr hcontra)
          rw [if_neg hB]
          simp only [str_len_append, byteHexEntry_len b hb, hbufl, hempty0,
            List.length_append, List.length_cons, List.length_nil]
          repeat' split
          all_goals omega
    · rw [e10, if_neg hC]
      by_cases hA : p.idx % p.windowSize.full = 1 <;>
        by_cases hB : p.idx % p.windowSize.full = p.windowSize.half
      · rw [if_pos hA, if_pos hB]
        exact not_mem_append_str (not_mem_append_str
          (not_mem_append_str inv.bufNl ind2) (byteHexEntry_not_mem_nl b)) hinnernl
      · rw [if_pos hA, if_neg hB]
        exact not_mem_append_str (not_mem_append_str
          (not_mem_append_str inv.bufNl ind2) (byteHexEntry_not_mem_nl b)) hemptynl
      · rw [if_neg hA, if_pos hB]
        exact not_mem_append_str (not_mem_append_str inv.bufNl
          (byteHexEntry_not_mem_nl b)) hinnernl
      · rw [if_neg hA, if_neg hB]
        exact not_mem_append_str (not_mem_append_str inv.bufNl
          (byteHexEntry_not_mem_nl b)) hemptynl
    · intro e he
      rw [e11, if_neg hC, List.append_nil] at he
      rw [List.mem_append] at he
      rcases he with he | he
      · exact inv.outGood e he
      · by_cases hcond : p.idx % p.windowSize.full = 1 ∧ ¬ p.headerWasPrinted
        · rw [if_pos (by simpa using hcond)] at he
          simp only [List.mem_singleton] at he
          subst he
          exact hdrEntry
        · rw [if_neg (by simpa using hcond)] at he
          simp at he

theorem alignInv_init (h offset : Nat) (sq : Bool) (hh : 1 ≤ h) :
    AlignInv h offset (alignedPrinter h offset sq) := by
  refine ⟨hh, rfl, rfl, rfl, rfl, rfl, le_refl 1, ?_, fun _ => rfl, ?_, ?_, ?_⟩
  · simp [alignedPrinter, Printer.new, Printer.withWindowSize, Printer.withDisplayOffset]
  · intro hc
    simp [alignedPrinter, Printer.new, Printer.withWindowSize, Printer.withDisplayOffset] at hc
  · simp [alignedPrinter, Printer.new, Printer.withWindowSize, Printer.withDisplayOffset]
  · intro e he
    simp [alignedPrinter, Printer.new, Printer.withWindowSize, Printer.withDisplayOffset,
      Sink.ok] at he

theorem alignInv_feed {h offset : Nat} (bs : List Nat) {p : Printer}
    (inv : AlignInv h offset p) (hbytes : ∀ b ∈ bs, b < 256)
    (hfit : p.idx - 1 + bs.length + offset ≤ 16 ^ h)
    (hfit2 : p.idx - 1 + bs.length + offset ≤ 2 ^ 64) :
    ∃ q, p.feedAll bs = some (q, bs.length, false) ∧ AlignInv h offset q ∧
      q.idx = p.idx + bs.length := by
  induction bs generalizing p with
  | nil => exact ⟨p, rfl, inv, by simp⟩
  | cons b rest ih =>
    have hidx := inv.idx1
    obtain ⟨q1, hq1, inv1, hidx1⟩ := alignInv_step inv b (hbytes b (by simp))
      (by simp at hfit; omega) (by simp at hfit2; omega)
    obtain ⟨q2, hq2, inv2, hidx2⟩ := ih inv1 (fun x hx => hbytes x (by simp [hx]))
      (by rw [hidx1]; simp at hfit; omega) (by rw [hidx1]; simp at hfit2; omega)
    refine ⟨q2, ?_, inv2, by simp; omega⟩
    simp only [Printer.feedAll, hq1, hq2]
    simp

theorem positionIndicatorText_corner (p : Printer) (hc : p.showColor = false)
    (hsty : p.borderStyle = .Unicode) :
    '┌' ∉ (Printer.positionIndicatorText p).data := by
  rw [positionIndicatorText_eq p hc, hsty]
  refine not_mem_append_str (not_mem_append_str (not_mem_append_str ?_ ?_) ?_) ?_
  · decide
  · exact zeroPadHex_not_mem_corner
  · decide
  · decide

theorem headerLineCount_nil : headerLineCount [] = 0 := rfl

theorem headerLineCount_append (l1 l2 : List String) :
    headerLineCount (l1 ++ l2) = headerLineCount l1 + headerLineCount l2 :=
  List.countP_append _ l1 l2

theorem headerLineCount_single_not {e : String} (hne : '┌' ∉ e.data) :
    headerLineCount [e] = 0 := by
  unfold headerLineCount
  rw [List.countP_singleton]
  cases hh : e.data.head? with
  | none => simp
  | some c =>
    have hc : c ∈ e.data := List.mem_of_mem_head? (by rw [hh]; rfl)
    have hcc : ¬ (c = '┌') := fun hx => hne (hx ▸ hc)
    simp [hcc]

theorem headerLineCount_hdr (w : WindowSize) :
    headerLineCount [Printer.borderLineOf w ⟨'┌', '─', '┬', '┐'⟩] = 1 := by
  obtain ⟨t, heq, hlen, hnl, hhead⟩ := borderLineOf_line w ⟨'┌', '─', '┬', '┐'⟩
    (by refine ⟨?_, ?_, ?_, ?_⟩ <;> decide)
  unfold headerLineCount
  rw [List.countP_singleton, heq]
  rw [show (t ++ "\n").data.head? = some '┌' by
    rw [str_data_append, List.head?_append, hhead]; rfl]
  simp

theorem asteriskLine_not_mem_corner (h : Nat) (hh : 1 ≤ h) :
    '┌' ∉ (Printer.asteriskLine false .Unicode h).data := by
  obtain ⟨t, heq, hlen, hnl, hcorner, hhead⟩ := asteriskLine_line h hh
  rw [heq, str_data_append]
  intro hmem
  rw [List.mem_append] at hmem
  rcases hmem with hmem | hmem
  · exact hcorner hmem
  · simp at hmem

theorem textlineTail_not_mem_corner (h : Nat) (bytes : List Nat) (hh : 1 ≤ h)
    (h1 : 1 ≤ bytes.length) (h2 : bytes.length ≤ 2 * h) :
    '┌' ∉ (Printer.textlineTail false .Unicode h bytes).data := by
  obtain ⟨t, heq, hlen, hnl, hcorner⟩ := textlineTail_line h bytes hh h1 h2
  rw [heq, str_data_append]
  intro hmem
  rw [List.mem_append] at hmem
  rcases hmem with hmem | hmem
  · exact hcorner hmem
  · simp at hmem

theorem headerInv_step {h : Nat} {p : Printer} (inv : HeaderInv h p) (b : Nat) :
    ∃ q, p.printByte b = some (q, true) ∧ HeaderInv h q ∧ q.idx = p.idx + 1 := by
  have hh := inv.hpos
  have hidx := inv.idx1
  have hhalf : p.windowSize.half = h := by rw [inv.ws]; exact windowSize_half_two_mul h
  have hfull : p.windowSize.full = 2 * h := by rw [inv.ws]; rfl
  have hmod := mod_succ_char (a := p.idx - 1) (n := 2 * h) (by omega)
  have hidxe : p.idx - 1 + 1 = p.idx := by omega
  rw [hidxe] at hmod
  have hraw := inv.raw
  have hflush : p.idx % p.windowSize.full = 0 → p.rawLine.length + 1 ≤ 2 * p.windowSize.half := by
    intro hc
    rw [hfull] at hc
    rw [hhalf]
    by_cases hcond : (p.idx - 1) % (2 * h) + 1 = 2 * h
    · omega
    · rw [if_neg hcond] at hmod
      omega
  obtain ⟨q, hq, e1, e2, e3, e4, e5, e6, e7, e8, e9, e10, e11⟩ :=
    printByte_step p b inv.plan inv.style inv.color
      (by rw [inv.ws]; show 2 * h % 2 = 0; omega) (by rw [hhalf]; exact hh) hflush
  have hindc := positionIndicatorText_corner p inv.color inv.style
  have hinnerc : '┌' ∉ (innerStr BorderStyle.Unicode ++ " ").data := by decide
  have hflushlist : headerLineCount (if p.idx % p.windowSize.full = 0 then
      (match (p.squeezer.process p.windowSize b p.idx).action with
       | SqueezeAction.Delete => ([] : List String)
       | SqueezeAction.Print => [Printer.asteriskLine false .Unicode p.windowSize.half]
       | SqueezeAction.Ignore => [p.bufferLine ++ byteHexEntry false b ++
           Printer.textlineTail false .Unicode p.windowSize.half (p.rawLine ++ [b])])
      else []) = 0 := by
    by_cases hC : p.idx % p.windowSize.full = 0
    · rw [if_pos hC]
      have hrawlen : p.rawLine.length = 2 * h - 1 := by
        by_cases hcond : (p.idx - 1) % (2 * h) + 1 = 2 * h
        · omega
        · rw [if_neg hcond] at hmod
          rw [hfull] at hC
          omega
      cases hact : (p.squeezer.process p.windowSize b p.idx).action
      · apply headerLineCount_single_not
        refine not_mem_append_str
          (not_mem_append_str inv.buf (byteHexEntry_not_mem_corner b)) ?_
        rw [hhalf]
        exact textlineTail_not_mem_corner h _ hh (by simp) (by simp; omega)
      · apply headerLineCount_single_not
        rw [hhalf]
        exact asteriskLine_not_mem_corner h hh
      · rfl
    · rw [if_neg hC]
      rfl
  refine ⟨q, hq, ?_, e1⟩
  refine ⟨hh, by rw [e2, inv.ws], by rw [e3, inv.style], by rw [e4, inv.color],
    by rw [e6, inv.plan], by omega, ?_, ?_, ?_⟩
  · rw [e8]
    by_cases hC : p.idx % p.windowSize.full = 0
    · rw [if_pos hC, e1]
      simp
      rw [hfull] at hC
      omega
    · rw [if_neg hC, e1]
      simp
      by_cases hcond : (p.idx - 1) % (2 * h) + 1 = 2 * h
      · rw [if_pos hcond] at hmod
        rw [hfull] at hC
        omega
      · rw [if_neg hcond] at hmod
        omega
  · rw [e11, headerLineCount_append, headerLineCount_append, hflushlist, e7]
    by_cases hflag : p.headerWasPrinted
    · rw [if_neg (by simp [hflag] :
        ¬ (p.idx % p.windowSize.full = 1 ∧ ¬ p.headerWasPrinted = true))]
      have hold := inv.cnt
      rw [if_pos hflag] at hold
      simp [hflag, headerLineCount_nil]
      omega
    · have hc0 := inv.cnt
      rw [if_neg hflag] at hc0
      by_cases hA : p.idx % p.windowSize.full = 1
      · rw [if_pos (by simp [hA, hflag])]
        rw [headerLineCount_hdr]
        simp [hflag, hA, headerLineCount_nil]
        omega
      · rw [if_neg (by simp [hA])]
        simp [hflag, hA, headerLineCount_nil]
        omega
  · rw [e10]
    by_cases hC : p.idx % p.windowSize.full = 0
    · rw [if_pos hC]
      decide
    · rw [if_neg hC]
      by_cases hA : p.idx % p.windowSize.full = 1 <;>
        by_cases hB : p.idx % p.windowSize.full = p.windowSize.half
      · rw [if_pos hA, if_pos hB]
        exact not_mem_append_str (not_mem_append_str
          (not_mem_append_str inv.buf hindc) (byteHexEntry_not_mem_corner b)) hinnerc
      · rw [if_pos hA, if_neg hB]
        exact not_mem_append_str (not_mem_append_str
          (not_mem_append_str inv.buf hindc) (byteHexEntry_not_mem_corner b)) (by decide)
      · rw [if_neg hA, if_pos hB]
        exact not_mem_append_str (not_mem_append_str inv.buf
          (byteHexEntry_not_mem_corner b)) hinnerc
      · rw [if_neg hA, if_neg hB]
        exact not_mem_append_str (not_mem_append_str inv.buf
          (byteHexEntry_not_mem_corner b)) (by decide)

theorem headerInv_feed {h : Nat} (bs : List Nat) {p : Printer} (inv : HeaderInv h p) :
    ∃ q, p.feedAll bs = some (q, bs.length, false) ∧ HeaderInv h q := by
  induction bs generalizing p with
  | nil => exact ⟨p, rfl, inv⟩
  | cons b rest ih =>
    obtain ⟨q1, hq1, inv1, _⟩ := headerInv_step inv b
    obtain ⟨q2, hq2, inv2⟩ := ih inv1
    refine ⟨q2, ?_, inv2⟩
    simp only [Printer.feedAll, hq1, hq2]
    simp

theorem printPositionIndicator_ws (p : Printer) :
    (p.printPositionIndicator).windowSize = p.windowSize := by
  unfold Printer.printPositionIndicator Printer.header
  by_cases hflag : p.headerWasPrinted
  · rw [if_pos hflag]
  · rw [if_neg hflag]
    cases p.borderStyle.headerElems <;> rfl

theorem printTextline_ws (p : Printer) :
    ((p.printTextline).1).windowSize = p.windowSize := by
  simp only [Printer.printTextline]
  repeat' split
  all_goals simp [printPositionIndicator_ws]

theorem printByte_ws {p : Printer} {b : Nat} {r : Printer × Bool}
    (h : p.printByte b = some r) : r.1.windowSize = p.windowSize := by
  simp only [Printer.printByte] at h
  by_cases hfull : p.windowSize.full = 0
  · rw [if_pos hfull] at h
    simp at h
  · rw [if_neg hfull] at h
    by_cases hA : p.idx % p.windowSize.full = 1
    · rw [if_pos hA] at h
      repeat' split at h
      all_goals injection h with h2
      all_goals subst h2
      all_goals simp [printPositionIndicator_ws, printTextline_ws]
    · rw [if_neg hA] at h
      repeat' split at h
      all_goals injection h with h2
      all_goals subst h2
      all_goals simp [printPositionIndicator_ws, printTextline_ws]

theorem ite_some_isSome {α : Type} (c : Prop) [Decidable c] (x y : α) :
    ∃ r, (if c then some x else some y) = some r := by
  by_cases h : c
  · exact ⟨x, if_pos h⟩
  · exact ⟨y, if_neg h⟩

theorem printByte_isSome (p : Printer) (b : Nat) (hfull : p.windowSize.full ≠ 0) :
    ∃ r, p.printByte b = some r := by
  simp only [Printer.printByte, if_neg hfull]
  exact ite_some_isSome _ _ _

theorem feedAll_spec (bs : List Nat) (p : Printer) (hfull : p.windowSize.full ≠ 0) :
    ∃ q k e, p.feedAll bs = some (q, k, e) ∧ k ≤ bs.length ∧
      (e = false → k = bs.length) ∧
      (e = true → 1 ≤ k ∧ ∃ q0 bf rest, bs.drop (k - 1) = bf :: rest ∧
        p.feedAll (bs.take (k - 1)) = some (q0, k - 1, false) ∧
        q0.printByte bf = some (q, false)) := by
  induction bs generalizing p with
  | nil =>
    refine ⟨p, 0, false, rfl, by simp, fun _ => rfl, by simp⟩
  | cons b rest ih =>
    obtain ⟨r, hr⟩ := printByte_isSome p b hfull
    rcases r with ⟨q1, ok⟩
    cases ok with
    | false =>
      refine ⟨q1, 1, true, ?_, by simp, by simp, ?_⟩
      · simp only [Printer.feedAll, hr]
      · intro
        exact ⟨le_refl 1, p, b, rest, by simp, by simp [Printer.feedAll], hr⟩
    | true =>
      have hws := printByte_ws hr
      obtain ⟨q2, k, e, hfeed, hk, he0, he1⟩ := ih q1 (by rw [hws]; exact hfull)
      refine ⟨q2, k + 1, e, ?_, by simp; omega, fun hee => by simp [he0 hee], ?_⟩
      · simp only [Printer.feedAll, hr, hfeed]
      · intro hee
        obtain ⟨hk1, q0, bf, rest2, hdrop, htake, hfail⟩ := he1 hee
        refine ⟨by omega, q0, bf, rest2, ?_, ?_, hfail⟩
        · have hkk : k + 1 - 1 = (k - 1) + 1 := by omega
          rw [hkk, List.drop_succ_cons]
          exact hdrop
        · have hkk : k + 1 - 1 = (k - 1) + 1 := by omega
          rw [hkk, List.take_succ_cons]
          simp only [Printer.feedAll, hr, htake]

theorem finishLines {h : Nat} (p : Printer) (hp : p.sink.plan = fun _ => true)
    (hsty : p.borderStyle = .Unicode) (hws : p.windowSize = ⟨2 * h⟩)
    (hout : ∀ e ∈ p.sink.out, lineEntry (9 * h + 8) e) :
    ∀ e ∈ ((if !p.headerWasPrinted then p.header else p).footer).sink.out,
      lineEntry (9 * h + 8) e := by
  have hdrGood : lineEntry (9 * h + 8)
      (Printer.borderLineOf p.windowSize ⟨'┌', '─', '┬', '┐'⟩) := by
    obtain ⟨t, heq, hlen, hnl, _⟩ := borderLineOf_line p.windowSize
      ⟨'┌', '─', '┬', '┐'⟩ (by refine ⟨?_, ?_, ?_, ?_⟩ <;> decide)
    rw [heq]
    refine ⟨t, rfl, ?_, hnl⟩
    rw [hlen, hws, windowSize_half_two_mul]
  have ftrGood : lineEntry (9 * h + 8)
      (Printer.borderLineOf p.windowSize ⟨'└', '─', '┴', '┘'⟩) := by
    obtain ⟨t, heq, hlen, hnl, _⟩ := borderLineOf_line p.windowSize
      ⟨'└', '─', '┴', '┘'⟩ (by refine ⟨?_, ?_, ?_, ?_⟩ <;> decide)
    rw [heq]
    refine ⟨t, rfl, ?_, hnl⟩
    rw [hlen, hws, windowSize_half_two_mul]
  by_cases hflag : p.headerWasPrinted
  · rw [show (if !p.headerWasPrinted then p.header else p) = p by simp [hflag]]
    rw [footer_spec p hp hsty]
    intro e he
    simp only [List.mem_append, List.mem_singleton] at he
    rcases he with he | he
    · exact hout e he
    · subst he
      exact ftrGood
  · rw [show (if !p.headerWasPrinted then p.header else p) = p.header by simp [hflag]]
    rw [header_spec p hp hsty]
    rw [footer_spec { p with sink := { p.sink with
      out := p.sink.out ++ [Printer.borderLineOf p.windowSize ⟨'┌', '─', '┬', '┐'⟩],
      count := p.sink.count + 1 } } hp hsty]
    intro e he
    simp only [List.mem_append, List.mem_singleton] at he
    rcases he with (he | he) | he
    · exact hout e he
    · subst he
      exact hdrGood
    · subst he
      exact ftrGood

/-- C3 (amended): with coloring disabled, Unicode border, window size `2*h`,
any squeeze setting and any display offset, for every u8 input whose length
is not a multiple of the row width, provided every printed address fits the
half-width address column (input length + display offset at most `16^h`,
and within the u64 range), `print_all` succeeds and every recorded write --
header, data rows, placeholder rows, the padded trailing short row, and the
footer -- is exactly one line of `9*h + 8` characters. -/
theorem c3_trailing_row_alignment (h offset : Nat) (sq : Bool) (bs : List Nat)
    (hh : 1 ≤ h) (hbytes : ∀ b ∈ bs, b < 256)
    (hmod : bs.length % (2 * h) ≠ 0)
    (hfit : bs.length + offset ≤ 16 ^ h) (hfit2 : bs.length + offset ≤ 2 ^ 64) :
    ∃ q k r, (alignedPrinter h offset sq).printAll bs = some (q, k, r) ∧
      ∀ e ∈ q.sink.out, lineEntry (9 * h + 8) e := by
  have hidx0 : (alignedPrinter h offset sq).idx = 1 := rfl
  obtain ⟨q, hfeed, inv, hidx⟩ := alignInv_feed bs (alignInv_init h offset sq hh) hbytes
    (by rw [hidx0]; omega) (by rw [hidx0]; omega)
  rw [hidx0] at hidx
  have hhalfq : q.windowSize.half = h := by rw [inv.ws]; exact windowSize_half_two_mul h
  have hrawlen : q.rawLine.length = bs.length % (2 * h) := by
    rw [inv.raw, hidx]
    simp
  have hrawne : q.rawLine ≠ [] := by
    intro hc
    rw [hc] at hrawlen
    simp at hrawlen
    exact hmod hrawlen.symm
  have hrawpos : 1 ≤ q.rawLine.length := by
    have := List.length_pos.mpr hrawne
    omega
  have hrawbound : q.rawLine.length ≤ 2 * q.windowSize.half := by
    rw [hhalfq, hrawlen]
    have := Nat.mod_lt bs.length (y := 2 * h) (by omega)
    omega
  obtain ⟨q2, htl, t1, t2, t3, t4, t5, t6, t7, t8, t9, t10, t11⟩ :=
    printTextline_step q inv.plan hrawne inv.style inv.color (by rw [hhalfq]; exact hh) hrawbound
  have hq2out : ∀ e ∈ q2.sink.out, lineEntry (9 * h + 8) e := by
    intro e he
    rw [t11, List.mem_append] at he
    rcases he with he | he
    · exact inv.outGood e he
    · cases hact : q.squeezer.action <;> rw [hact] at he
      · simp only [List.mem_singleton] at he
        subst he
        obtain ⟨t, heq, hlen, hnl, _⟩ := textlineTail_line h q.rawLine hh hrawpos
          (by rw [hhalfq] at hrawbound; exact hrawbound)
        rw [hhalfq, heq, ← String.append_assoc]
        refine ⟨q.bufferLine ++ t, rfl, ?_, not_mem_append_str inv.bufNl hnl⟩
        rw [str_len_append]
        have hbufl := inv.bufL (by omega)
        omega
      · simp only [List.mem_singleton] at he
        subst he
        obtain ⟨t, heq, hlen, hnl, _, _⟩ := asteriskLine_line h hh
        rw [hhalfq, heq]
        exact ⟨t, rfl, hlen, hnl⟩
      · simp at he
  refine ⟨(if !q2.headerWasPrinted then q2.header else q2).footer, bs.length,
    Except.ok (), ?_, ?_⟩
  · simp only [Printer.printAll, hfeed, htl]
  · exact finishLines q2 (by rw [t10]; exact inv.plan) (by rw [t7]; exact inv.style)
      (by rw [t6]; exact inv.ws) hq2out

/-- C1 counterexample: the claim says construction never succeeds for a
non-positive width, but `WindowSize::new` only checks divisibility by two,
so the non-positive width 0 is accepted. -/
theorem c1_counterexample : WindowSize.new 0 = Except.ok ⟨0⟩ := rfl

/-- C1 (amended): row-width construction fails with `WindowSizeError`
exactly for odd `n`; it succeeds for every even `n` -- including 0 -- and
on success the accessors satisfy `half() * 2 = full() = n`. -/
theorem c1_row_width_construction (n : Nat) :
    (n % 2 = 1 → WindowSize.new n = Except.error WindowSizeError.mk) ∧
    (n % 2 = 0 → ∃ w : WindowSize, WindowSize.new n = Except.ok w ∧
      w.half * 2 = w.full ∧ w.full = n) := by
  constructor
  · intro hodd
    simp [WindowSize.new, hodd]
  · intro heven
    refine ⟨⟨n⟩, by simp [WindowSize.new, heven], ?_, rfl⟩
    simp only [WindowSize.half, WindowSize.full]
    omega

theorem c1_row_width_construction_witness :
    WindowSize.new 3 = Except.error WindowSizeError.mk ∧
    ∃ w : WindowSize, WindowSize.new 16 = Except.ok w ∧
      w.half * 2 = w.full ∧ w.full = 16 :=
  ⟨(c1_row_width_construction 3).1 (by decide),
   (c1_row_width_construction 16).2 (by decide)⟩

/-- C2 counterexample: the claim says at most one header line is ever
emitted over every sequence of public calls including an explicit
`header()` call; but `header()` neither checks nor sets the
header-already-emitted flag, so `header()` followed by one `print_byte`
emits the top border twice. -/
theorem c2_counterexample : ¬ (headerLineCount doubleHeaderOut ≤ 1) := by decide

/-- C2 (amended): the flag guards only the lazy emission path: across any
sequence of `print_byte` calls on a fresh printer (reliable sink, Unicode
border, color off, window size `2*h`, any squeeze setting, any display
offset), at most one header line is emitted; an explicit `header()` call
is not tracked by the flag and can re-emit. -/
theorem c2_header_emitted_once (h offset : Nat) (sq : Bool) (bs : List Nat)
    (hh : 1 ≤ h) (q : Printer) (k : Nat) (e : Bool)
    (hrun : (alignedPrinter h offset sq).feedAll bs = some (q, k, e)) :
    headerLineCount q.sink.out ≤ 1 := by
  have inv0 : HeaderInv h (alignedPrinter h offset sq) := by
    refine ⟨hh, rfl, rfl, rfl, rfl, le_refl 1, ?_, ?_, ?_⟩ <;>
      simp [alignedPrinter, Printer.new, Printer.withWindowSize,
        Printer.withDisplayOffset, Sink.ok, headerLineCount]
  obtain ⟨q2, hq2, inv2⟩ := headerInv_feed bs inv0
  rw [hq2] at hrun
  have hqq : q2 = q := by
    injection hrun with hrun2
    exact congrArg Prod.fst hrun2
  have hcnt := inv2.cnt
  rw [hqq] at hcnt
  by_cases hflag : q.headerWasPrinted
  · rw [if_pos hflag] at hcnt
    exact hcnt
  · rw [if_neg hflag] at hcnt
    omega

theorem c2_header_emitted_once_witness : headerLineCount c2RunOut ≤ 1 := by
  unfold c2RunOut
  rcases hfeed : (alignedPrinter 8 0 true).feedAll [0x61] with _ | ⟨q, k, e⟩
  · decide
  · exact c2_header_emitted_once 8 0 true [0x61] (by decide) q k e hfeed

/-- C3 counterexample: the claim quantifies over every input with every
configuration, but when a printed address overflows the half-width address
column the data row grows beyond the border width: dumping one byte with
display offset `2^32` yields recorded writes of 81, 82 and 81 characters
(header, data row, footer, newlines included), so not all output lines
have the same length. -/
theorem c3_counterexample :
    overflowOffsetLens = [81, 82, 81] ∧ allEqNat overflowOffsetLens = false := by
  constructor <;> rfl

theorem c3_trailing_row_alignment_witness :
    ∃ q k r, (alignedPrinter 8 0 true).printAll [0x73, 0x70, 0x61, 0x6d] = some (q, k, r) ∧
      ∀ e ∈ q.sink.out, lineEntry (9 * 8 + 8) e :=
  c3_trailing_row_alignment 8 0 true [0x73, 0x70, 0x61, 0x6d] (by decide)
    (by decide) (by decide) (by decide) (by decide)

/-- C4: applying the duplicate-run decision in `print_textline` to a
completed row: `Print` (CollapseFirst) discards the rendered row and
writes the single `*` placeholder, whose total length equals a normal data
row (`9*half + 8` characters plus the newline); `Delete` (Suppress)
writes nothing to the sink; `Ignore` (Normal) writes the buffered row
followed by its char panels exactly as rendered. -/
theorem c4_squeeze_decision_application (p : Printer)
    (hp : p.sink.plan = fun _ => true) (hraw : p.rawLine ≠ [])
    (hsty : p.borderStyle = .Unicode) (hcolor : p.showColor = false)
    (hh : 1 ≤ p.windowSize.half)
    (hlen2 : p.rawLine.length ≤ 2 * p.windowSize.half) :
    ∃ q, p.printTextline = (q, true) ∧
      q.sink.out = p.sink.out ++
        (match p.squeezer.action with
         | SqueezeAction.Delete => []
         | SqueezeAction.Print => [Printer.asteriskLine false .Unicode p.windowSize.half]
         | SqueezeAction.Ignore =>
             [p.bufferLine ++ Printer.textlineTail false .Unicode p.windowSize.half p.rawLine]) ∧
      (Printer.asteriskLine false .Unicode p.windowSize.half).data.length =
        (9 * p.windowSize.half + 8) + 1 := by
  obtain ⟨q, hq, _, _, _, _, _, _, _, _, _, _, hout⟩ :=
    printTextline_step p hp hraw hsty hcolor hh hlen2
  refine ⟨q, hq, hout, ?_⟩
  obtain ⟨t, heq, hlen, _, _, _⟩ := asteriskLine_line p.windowSize.half hh
  rw [heq, str_len_append, hlen]
  rfl

theorem c4_squeeze_decision_application_witness :
    ∃ q, rowSample.printTextline = (q, true) ∧
      q.sink.out = rowSample.sink.out ++
        (match rowSample.squeezer.action with
         | SqueezeAction.Delete => []
         | SqueezeAction.Print => [Printer.asteriskLine false .Unicode rowSample.windowSize.half]
         | SqueezeAction.Ignore =>
             [rowSample.bufferLine ++
               Printer.textlineTail false .Unicode rowSample.windowSize.half rowSample.rawLine]) ∧
      (Printer.asteriskLine false .Unicode rowSample.windowSize.half).data.length =
        (9 * rowSample.windowSize.half + 8) + 1 :=
  c4_squeeze_decision_application rowSample rfl (by decide) rfl rfl (by decide) (by decide)

/-- C5: dumping the 20 bytes of `"spamspamspamspamspam"` with display
offset `0xdeadbeef`, window size 16, no color and the Unicode border
produces exactly the header, two data rows addressed `deadbeef` and
`deadbeff` -- the first showing char panels `spamspam`/`spamspam`, the
second showing `spam` padded with a blank second panel -- and the footer
(the `display_offset` unit test). -/
theorem c5_display_offset_dump :
    displayOffsetOut =
      [unicodeHeaderLine,
       "│deadbeef│ 73 70 61 6d 73 70 61 6d ┊ 73 70 61 6d 73 70 61 6d │spamspam┊spamspam│\n",
       "│deadbeff│ 73 70 61 6d             ┊                         │spam    ┊        │\n",
       unicodeFooterLine] := by
  rfl

/-- C6: `print_all` on empty input with the Unicode border, squeeze
enabled and window size 16 writes exactly one header line immediately
followed by one footer line: no data rows and no placeholder rows (the
`empty_file_passes` unit test). -/
theorem c6_empty_input_header_footer :
    emptyInputOut = [unicodeHeaderLine, unicodeFooterLine] := by
  rfl

set_option maxRecDepth 4000 in
/-- C7: for every byte value, classification and the display glyph are
total and deterministic and refine the spec-side priority rules: 0x00 is
Null with glyph `0`; ASCII graphic bytes are printable shown as
themselves; the five ASCII whitespace bytes show a space exactly for 0x20
and `_` otherwise; the remaining ASCII bytes are other-control shown as
`•`; every byte at or above 0x80 is non-ASCII shown as `×`. -/
theorem c7_byte_classification :
    ∀ b : Fin 256, Byte.category b.val = specCategory b.val ∧
      Byte.asChar b.val = specGlyph b.val := by
  decide

/-- C8: the address field is rendered exactly when the 1-based running
index satisfies `index % full = 1`; the printed address is
`index - 1 + display_offset` as zero-padded lowercase hex of width equal
to the half row width, enclosed by the outer separator glyphs; and the
display offset affects only the printed address: the index, raw line,
squeezer state and header flag after `print_byte` are the same under
every display offset.  (The fit hypotheses keep the address inside the
64-bit range and the half-width column; overflow is claim C3's
counterexample.) -/
theorem c8_address_field (p : Printer) (b : Nat)
    (hp : p.sink.plan = fun _ => true) (hsty : p.borderStyle = .Unicode)
    (hcolor : p.showColor = false) (heven : p.windowSize.val % 2 = 0)
    (hpos : 1 ≤ p.windowSize.half)
    (hflush : p.idx % p.windowSize.full = 0 → p.rawLine.length + 1 ≤ 2 * p.windowSize.half)
    (hfit : p.idx - 1 + p.displayOffset < 16 ^ p.windowSize.half)
    (hfit2 : p.idx - 1 + p.displayOffset < 2 ^ 64) :
    Printer.positionIndicatorText p =
      outerStr p.borderStyle ++
        zeroPadHex p.windowSize.half (p.idx - 1 + p.displayOffset) ++
        outerStr p.borderStyle ++ " " ∧
    (zeroPadHex p.windowSize.half (p.idx - 1 + p.displayOffset)).data.length =
      p.windowSize.half ∧
    (∃ q, p.printByte b = some (q, true) ∧
      q.bufferLine = (if p.idx % p.windowSize.full = 0 then "" else
        (if p.idx % p.windowSize.full = 1
          then p.bufferLine ++ Printer.positionIndicatorText p else p.bufferLine) ++
        byteHexEntry false b ++
        (if p.idx % p.windowSize.full = p.windowSize.half
          then innerStr .Unicode ++ " " else ""))) ∧
    (∀ d, ∃ q q2, p.printByte b = some (q, true) ∧
      (p.withDisplayOffset d).printByte b = some (q2, true) ∧
      q2.idx = q.idx ∧ q2.rawLine = q.rawLine ∧ q2.squeezer = q.squeezer ∧
      q2.headerWasPrinted = q.headerWasPrinted) := by
  have hmod : (p.idx - 1 + p.displayOffset) % 2 ^ 64 = p.idx - 1 + p.displayOffset :=
    Nat.mod_eq_of_lt hfit2
  refine ⟨?_, ?_, ?_, ?_⟩
  · rw [positionIndicatorText_eq p hcolor, hmod]
  · exact zeroPadHex_len hpos hfit
  · obtain ⟨q, hq, e1, e2, e3, e4, e5, e6, e7, e8, e9, e10, e11⟩ :=
      printByte_step p b hp hsty hcolor heven hpos hflush
    exact ⟨q, hq, e10⟩
  · intro d
    have hp2 : (p.withDisplayOffset d).sink.plan = fun _ => true := hp
    have hsty2 : (p.withDisplayOffset d).borderStyle = .Unicode := hsty
    have hcolor2 : (p.withDisplayOffset d).showColor = false := hcolor
    have heven2 : (p.withDisplayOffset d).windowSize.val % 2 = 0 := heven
    have hpos2 : 1 ≤ (p.withDisplayOffset d).windowSize.half := hpos
    have hflush2 : (p.withDisplayOffset d).idx % (p.withDisplayOffset d).windowSize.full = 0 →
        (p.withDisplayOffset d).rawLine.length + 1 ≤ 2 * (p.withDisplayOffset d).windowSize.half :=
      hflush
    obtain ⟨q, hq, e1, e2, e3, e4, e5, e6, e7, e8, e9, e10, e11⟩ :=
      printByte_step p b hp hsty hcolor heven hpos hflush
    obtain ⟨q2, hq2, f1, f2, f3, f4, f5, f6, f7, f8, f9, f10, f11⟩ :=
      printByte_step (p.withDisplayOffset d) b hp2 hsty2 hcolor2 heven2 hpos2 hflush2
    refine ⟨q, q2, hq, hq2, ?_, ?_, ?_, ?_⟩
    · simp only [f1, e1, Printer.withDisplayOffset]
    · simp only [f8, e8, Printer.withDisplayOffset]
    · simp only [f9, e9, Printer.withDisplayOffset]
    · simp only [f7, e7, Printer.withDisplayOffset]

theorem c8_address_field_witness :
    Printer.positionIndicatorText rowSample =
      outerStr rowSample.borderStyle ++
        zeroPadHex rowSample.windowSize.half
          (rowSample.idx - 1 + rowSample.displayOffset) ++
        outerStr rowSample.borderStyle ++ " " ∧
    (zeroPadHex rowSample.windowSize.half
        (rowSample.idx - 1 + rowSample.displayOffset)).data.length =
      rowSample.windowSize.half :=
  have h := c8_address_field rowSample 0x73 rfl rfl rfl (by decide) (by decide)
    (by decide) (by decide) (by decide)
  ⟨h.1, h.2.1⟩

/-- C9: with a nonzero window size, `print_all` never panics and never
retries: the feed loop consumes a prefix of the input whose length is the
whole input exactly when no write failed; on a failure the loop stops
right after the failing byte (the last consumed byte's `print_byte`
returned the failure and everything before it succeeded); afterwards the
trailing row is still attempted with its failure swallowed, the header is
forced if it never fired, the footer is attempted, and the call returns
`Ok(())`. -/
theorem c9_graceful_termination (p : Printer) (bs : List Nat)
    (hfull : p.windowSize.full ≠ 0) :
    ∃ q k e, p.feedAll bs = some (q, k, e) ∧
      p.printAll bs = some
        ((if !((q.printTextline).1).headerWasPrinted
          then ((q.printTextline).1).header else (q.printTextline).1).footer,
         k, Except.ok ()) ∧
      k ≤ bs.length ∧ (e = false → k = bs.length) ∧
      (e = true → 1 ≤ k ∧ ∃ q0 bf rest, bs.drop (k - 1) = bf :: rest ∧
        p.feedAll (bs.take (k - 1)) = some (q0, k - 1, false) ∧
        q0.printByte bf = some (q, false)) := by
  obtain ⟨q, k, e, hfeed, h1, h2, h3⟩ := feedAll_spec bs p hfull
  refine ⟨q, k, e, hfeed, ?_, h1, h2, h3⟩
  simp only [Printer.printAll, hfeed]

theorem c9_graceful_termination_witness :
    ∃ q k e, (Printer.new failSink false .Unicode true).feedAll c9Input = some (q, k, e) ∧
      (Printer.new failSink false .Unicode true).printAll c9Input = some
        ((if !((q.printTextline).1).headerWasPrinted
          then ((q.printTextline).1).header else (q.printTextline).1).footer,
         k, Except.ok ()) ∧
      k ≤ c9Input.length ∧ (e = false → k = c9Input.length) ∧
      (e = true → 1 ≤ k ∧ ∃ q0 bf rest, c9Input.drop (k - 1) = bf :: rest ∧
        (Printer.new failSink false .Unicode true).feedAll (c9Input.take (k - 1)) =
          some (q0, k - 1, false) ∧
        q0.printByte bf = some (q, false)) :=
  c9_graceful_termination (Printer.new failSink false .Unicode true) c9Input (by decide)

/-- C10: window-size construction accepts 0 (0 is even), and a printer
configured with window size 0 makes `print_byte` non-total: the
row-boundary computation `idx % full` is a remainder by zero, where the
Rust code panics, so `print_byte` returns no result for any byte. -/
theorem c10_zero_window_size (p : Printer) (b : Nat)
    (h0 : p.windowSize = ⟨0⟩) :
    WindowSize.new 0 = Except.ok ⟨0⟩ ∧ p.printByte b = none := by
  refine ⟨rfl, ?_⟩
  simp [Printer.printByte, h0, WindowSize.full]

theorem c10_zero_window_size_witness :
    WindowSize.new 0 = Except.ok ⟨0⟩ ∧
    ((Printer.new Sink.ok false .Unicode true).withWindowSize ⟨0⟩).printByte 0x61 = none :=
  c10_zero_window_size ((Printer.new Sink.ok false .Unicode true).withWindowSize ⟨0⟩)
    0x61 rfl

end Hexyl
